import Mathlib

/-!
Verification development for the hoogle-effect type-search core.

The development shallowly embeds the three components of the core —
the query parser (`type-parser.ts`), the unifier (`type-unifier.ts`) and
the search orchestrator (`type-search.ts`) — as executable Lean
functions, and proves the specified properties about them.

Modelling conventions:
* JavaScript numbers are modelled as exact rationals (`ℚ`); every score
  computation in the source is a combination of additions, averages and
  multiplications by decimal constants, all exact in `ℚ`.  The one place
  the source can produce `NaN` (averaging zero tuple elements, `0/0`)
  is modelled by Lean's `0/0 = 0`; both fail the strict comparisons
  (`> 30`, `> bestScore`) identically, so the observable behaviour agrees.
* The mutable `Map` of type-variable bindings is modelled as an
  association list threaded through the computation: each unification
  step returns the match result together with the binding table as it
  stands after the call (the source mutates `context.bindings` in place).
  `new Map(context.bindings)` (clone-before-branch) becomes plain value
  passing.
* The bounded recursion (`depth >= MAX_UNIFY_DEPTH`) is realised by
  structural recursion on the remaining fuel `MAX_UNIFY_DEPTH - depth`,
  so all definitions compute by kernel reduction.
-/

/-- The `kind` discriminator of a parsed type-tree node.  The parser and
unifier additionally use the string kinds `"typeVariable"` and
`"wildcard"`, so they are included alongside the kinds listed in the
`TypeKind` union of `types/index.ts`. -/
inductive TypeKind where
  | effect
  | function
  | generic
  | union
  | intersection
  | tuple
  | literal
  | primitive
  | reference
  | typeVariable
  | wildcard
  | unknown
deriving DecidableEq, Repr

/-- A type-tree node (`TypeNode` in `types/index.ts`): a kind, the raw
text, and optional payloads.  The optional boolean flags
`isTypeVariable` / `isWildcard` used by the parser and unifier are
modelled as plain booleans (absent = `false`). -/
inductive TypeNode where
  | mk (kind : TypeKind) (text : String)
       (children : Option (List TypeNode))
       (typeName : Option String)
       (typeArguments : Option (List TypeNode))
       (isTypeVariable : Bool)
       (isWildcard : Bool)

/-- The node's kind. -/
def TypeNode.kind : TypeNode → TypeKind
  | .mk k _ _ _ _ _ _ => k

/-- The node's raw text. -/
def TypeNode.text : TypeNode → String
  | .mk _ t _ _ _ _ _ => t

/-- The node's ordered children (functions, unions, tuples). -/
def TypeNode.children : TypeNode → Option (List TypeNode)
  | .mk _ _ c _ _ _ _ => c

/-- The node's constructor name (generics, references). -/
def TypeNode.typeName : TypeNode → Option String
  | .mk _ _ _ n _ _ _ => n

/-- The node's type arguments (generics, effects). -/
def TypeNode.typeArguments : TypeNode → Option (List TypeNode)
  | .mk _ _ _ _ a _ _ => a

/-- The node's type-variable flag. -/
def TypeNode.isTypeVariable : TypeNode → Bool
  | .mk _ _ _ _ _ v _ => v

/-- The node's wildcard flag. -/
def TypeNode.isWildcard : TypeNode → Bool
  | .mk _ _ _ _ _ _ w => w

/-- The mutable binding table `Map<string, TypeNode>` of a unification
context, modelled as an insertion-ordered association list. -/
abbrev Bindings := List (String × TypeNode)

/-- `Map.prototype.get`. -/
def Bindings.get (bs : Bindings) (k : String) : Option TypeNode :=
  (bs.find? (fun p => p.1 = k)).map (·.2)

/-- `Map.prototype.set`: replace the existing entry in place, else append. -/
def Bindings.set (bs : Bindings) (k : String) (v : TypeNode) : Bindings :=
  if bs.any (fun p => p.1 = k) then
    bs.map (fun p => if p.1 = k then (k, v) else p)
  else
    bs ++ [(k, v)]

/-- Result of attempting to unify two types (`TypeMatchResult` in
`search/types.ts`). -/
structure TypeMatchResult where
  «matches» : Bool
  score : ℚ
  bindings : Bindings
  matchedParts : List String

/-- `noMatch()` from `search/types.ts`. -/
def noMatchR : TypeMatchResult :=
  { «matches» := false, score := 0, bindings := [], matchedParts := [] }

/-- `match(score, bindings, matchedParts)` from `search/types.ts`. -/
def mkMatch (score : ℚ) (bindings : Bindings) (matchedParts : List String) : TypeMatchResult :=
  { «matches» := true, score := score, bindings := bindings, matchedParts := matchedParts }

/-- `String.prototype.toLowerCase` (ASCII, which covers every string the
core compares). -/
def jsToLower (s : String) : String := ⟨s.data.map Char.toLower⟩

/-- JavaScript truthiness of an optional string (`undefined` and `""`
are falsy). -/
def strTruthy : Option String → Bool
  | some s => s ≠ ""
  | none => false

/-- A unification step at one fixed depth: both the match result and the
state of the caller's binding table after the call. -/
def Unifier := TypeNode → TypeNode → Bindings → TypeMatchResult × Bindings

/-- `kindsCompatible` from `type-unifier.ts`. -/
def kindsCompatible (queryKind targetKind : TypeKind) : Bool :=
  if queryKind = targetKind then true
  else if (queryKind = .effect ∧ targetKind = .generic) ∨
          (queryKind = .generic ∧ targetKind = .effect) then true
  else if queryKind = .typeVariable ∨ targetKind = .typeVariable then true
  else false

/-- The parameter loop of `unifyParameters`: walk the positional pairs
(the source loop breaks at the shorter list, which `List.zip` realises),
accumulating the total score (a failed position contributes a flat 20),
the number of compared positions, and the matched parts, threading the
binding table through every call. -/
def unifyParamsGo (unify : Unifier) :
    List (TypeNode × TypeNode) → Bindings → ℚ → Nat → List String →
    ℚ × Nat × List String × Bindings
  | [], bs, total, count, parts => (total, count, parts, bs)
  | (qp, tp) :: rest, bs, total, count, parts =>
    let r := unify qp tp bs
    if r.1.matches then
      unifyParamsGo unify rest r.2 (total + r.1.score) (count + 1) (parts ++ r.1.matchedParts)
    else
      unifyParamsGo unify rest r.2 (total + 20) (count + 1) parts

/-- `unifyParameters` from `type-unifier.ts`, parameterised by the
unifier used for the recursive calls (one depth further down). -/
def unifyParametersF (unify : Unifier) (queryParams targetParams : List TypeNode)
    (bs : Bindings) : TypeMatchResult × Bindings :=
  if queryParams.length = 0 then (mkMatch 70 bs [], bs)
  else
    let st := unifyParamsGo unify (queryParams.zip targetParams) bs 0 0 []
    let totalScore := st.1
    let matchCount := st.2.1
    let parts := st.2.2.1
    let bs1 := st.2.2.2
    if matchCount = 0 then (mkMatch 50 bs1 [], bs1)
    else
      let score := totalScore / (matchCount : ℚ)
      let score :=
        if queryParams.length = targetParams.length ∧ matchCount = queryParams.length then
          min 100 (score * 1.1)
        else score
      (mkMatch score bs1 parts, bs1)

/-- `unifyFunctionTypes` from `type-unifier.ts`: unify the return types
(last children) first, then the parameter lists. -/
def unifyFunctionTypesF (unify : Unifier) (query target : TypeNode)
    (bs : Bindings) : TypeMatchResult × Bindings :=
  let queryChildren := query.children.getD []
  let targetChildren := target.children.getD []
  if queryChildren.length = 0 ∨ targetChildren.length = 0 then (noMatchR, bs)
  else
    match queryChildren.getLast?, targetChildren.getLast? with
    | some queryReturn, some targetReturn =>
      let rr := unify queryReturn targetReturn bs
      if rr.1.matches = false then (noMatchR, rr.2)
      else
        let queryParams := queryChildren.dropLast
        let targetParams := targetChildren.dropLast
        if queryParams.length = 0 then
          (mkMatch (rr.1.score * 0.9) rr.2 rr.1.matchedParts, rr.2)
        else
          let pr := unifyParametersF unify queryParams targetParams rr.2
          let score := rr.1.score * 0.6 + pr.1.score * 0.4
          (mkMatch score pr.2 (rr.1.matchedParts ++ pr.1.matchedParts), pr.2)
    | _, _ => (noMatchR, bs)

/-- The strict pairwise loop shared by `unifyTypeArguments` and the
tuple branch of `unifyTypes`: unify the pairs in order, threading the
binding table; the first failing pair aborts (returning `none` and the
table as mutated so far); otherwise return the accumulated total score
and matched parts. -/
def unifyArgsGo (unify : Unifier) :
    List (TypeNode × TypeNode) → Bindings → ℚ → List String →
    Option (ℚ × List String) × Bindings
  | [], bs, total, parts => (some (total, parts), bs)
  | (qa, ta) :: rest, bs, total, parts =>
    let r := unify qa ta bs
    if r.1.matches then
      unifyArgsGo unify rest r.2 (total + r.1.score) (parts ++ r.1.matchedParts)
    else (none, r.2)

/-- `unifyTypeArguments` from `type-unifier.ts`. -/
def unifyTypeArgumentsF (unify : Unifier) (queryArgs targetArgs : List TypeNode)
    (bs : Bindings) : TypeMatchResult × Bindings :=
  let minLen := min queryArgs.length targetArgs.length
  if minLen = 0 then
    if queryArgs.length = 0 ∧ targetArgs.length = 0 then (mkMatch 100 bs [], bs)
    else (mkMatch 60 bs [], bs)
  else
    match unifyArgsGo unify (queryArgs.zip targetArgs) bs 0 [] with
    | (none, bs1) => (noMatchR, bs1)
    | (some (totalScore, parts), bs1) =>
      let score := totalScore / (minLen : ℚ)
      let score := if queryArgs.length ≠ targetArgs.length then score * 0.8 else score
      (mkMatch score bs1 parts, bs1)

/-- The inner loop of `unifyUnionTypes` for one query member: scan all
target members, keeping the best-scoring match (strict improvement over
the running best, which starts at 0).  Every candidate pair is explored
against the caller's binding table `bs` (the source clones the map for
each pair, so mutations are invisible outside); the clone's final state
is discarded. -/
def unionBestGo (unify : Unifier) (queryMember : TypeNode) (bs : Bindings) :
    List TypeNode → ℚ → TypeMatchResult → ℚ × TypeMatchResult
  | [], bestScore, bestMatch => (bestScore, bestMatch)
  | tm :: rest, bestScore, bestMatch =>
    let r := (unify queryMember tm bs).1
    if r.matches = true ∧ r.score > bestScore then
      unionBestGo unify queryMember bs rest r.score r
    else
      unionBestGo unify queryMember bs rest bestScore bestMatch

/-- The outer loop of `unifyUnionTypes`: every query member must find a
best match; accumulate the best scores and matched parts. -/
def unifyUnionGo (unify : Unifier) (targetChildren : List TypeNode) (bs : Bindings) :
    List TypeNode → ℚ → List String → Option (ℚ × List String)
  | [], total, parts => some (total, parts)
  | qm :: rest, total, parts =>
    let best := (unionBestGo unify qm bs targetChildren 0 noMatchR).2
    if best.matches = false then none
    else unifyUnionGo unify targetChildren bs rest (total + best.score) (parts ++ best.matchedParts)

/-- `unifyUnionTypes` from `type-unifier.ts`. -/
def unifyUnionTypesF (unify : Unifier) (query target : TypeNode)
    (bs : Bindings) : TypeMatchResult × Bindings :=
  let queryChildren := query.children.getD []
  let targetChildren := target.children.getD []
  if queryChildren.length = 0 ∨ targetChildren.length = 0 then (noMatchR, bs)
  else
    match unifyUnionGo unify targetChildren bs queryChildren 0 [] with
    | none => (noMatchR, bs)
    | some (totalScore, parts) =>
      (mkMatch (totalScore / (queryChildren.length : ℚ)) bs parts, bs)

/-- The tuple branch of `unifyTypes`: equal arity, all element pairs
must match, score is the mean of the element scores. -/
def unifyTupleF (unify : Unifier) (query target : TypeNode)
    (bs : Bindings) : TypeMatchResult × Bindings :=
  match query.children, target.children with
  | some qcs, some tcs =>
    if qcs.length ≠ tcs.length then (noMatchR, bs)
    else
      match unifyArgsGo unify (qcs.zip tcs) bs 0 [] with
      | (none, bs1) => (noMatchR, bs1)
      | (some (totalScore, parts), bs1) =>
        (mkMatch (totalScore / (qcs.length : ℚ)) bs1 parts, bs1)
  | _, _ => (noMatchR, bs)

/-- One level of `unifyTypes` below the depth limit, parameterised by
the unifier used for all recursive (depth + 1) calls.  Follows the rule
order of the source exactly. -/
def unifyStep (unify : Unifier) : Unifier := fun query target bs =>
  if query.isWildcard then (mkMatch 80 bs [target.text], bs)
  else if query.isTypeVariable then
    match bs.get query.text with
    | some existing =>
      if existing.text = target.text then (mkMatch 90 bs [target.text], bs)
      else if existing.isTypeVariable ∨ target.isTypeVariable then
        (mkMatch 85 bs [target.text], bs)
      else if existing.kind ≠ target.kind then (noMatchR, bs)
      else if strTruthy existing.typeName ∧ strTruthy target.typeName ∧
              existing.typeName ≠ target.typeName then (noMatchR, bs)
      else (mkMatch 80 bs [target.text], bs)
    | none =>
      let bs1 := bs.set query.text target
      (mkMatch 90 bs1 [target.text], bs1)
  else if target.isTypeVariable then (mkMatch 85 bs [target.text], bs)
  else if query.kind = .function ∧ target.kind = .function then
    unifyFunctionTypesF unify query target bs
  else if kindsCompatible query.kind target.kind = false then (noMatchR, bs)
  else if (query.kind = .generic ∨ query.kind = .effect) ∧
          query.typeArguments.isSome ∧ target.typeArguments.isSome then
    if query.typeName.map jsToLower ≠ target.typeName.map jsToLower then (noMatchR, bs)
    else unifyTypeArgumentsF unify (query.typeArguments.getD []) (target.typeArguments.getD []) bs
  else if query.kind = .primitive then
    if jsToLower query.text = jsToLower target.text then (mkMatch 100 bs [target.text], bs)
    else (noMatchR, bs)
  else if query.kind = .reference then
    if query.typeName.map jsToLower = target.typeName.map jsToLower ∨
       jsToLower query.text = jsToLower target.text then (mkMatch 100 bs [target.text], bs)
    else (noMatchR, bs)
  else if query.kind = .union ∧ target.kind = .union then
    unifyUnionTypesF unify query target bs
  else if query.kind = .tuple ∧ target.kind = .tuple then
    unifyTupleF unify query target bs
  else if jsToLower query.text = jsToLower target.text then (mkMatch 70 bs [target.text], bs)
  else (noMatchR, bs)

/-- The degenerate comparison performed once the depth limit is reached
(`depth >= MAX_UNIFY_DEPTH` in the source). -/
def unifyAtLimit : Unifier := fun query target bs =>
  if query.text = target.text then (mkMatch 60 bs [target.text], bs)
  else if query.isTypeVariable ∨ target.isTypeVariable then (mkMatch 50 bs [target.text], bs)
  else (noMatchR, bs)

/-- `unifyTypes` indexed by remaining fuel (`MAX_UNIFY_DEPTH - depth`). -/
def unifyTypesAux : Nat → Unifier
  | 0 => unifyAtLimit
  | fuel + 1 => unifyStep (unifyTypesAux fuel)

/-- `MAX_UNIFY_DEPTH` from `type-unifier.ts`. -/
def MAX_UNIFY_DEPTH : Nat := 10

/-- `unifyTypes(query, target, context, depth)` from `type-unifier.ts`.
Returns the match result together with the binding table as the call
leaves it. -/
def unifyTypes (query target : TypeNode) (bs : Bindings) (depth : Nat) :
    TypeMatchResult × Bindings :=
  unifyTypesAux (MAX_UNIFY_DEPTH - depth) query target bs

/-!
The query parser (`type-parser.ts`).  All character-level work is done
on `List Char`; query strings enter through `String.data`.  The
recursion of `parseType` (and of the arrow-normalisation scan) is on
computed substrings, so it is realised by structural recursion on a
fuel argument; the top-level entry points supply `length + 1` fuel,
which always suffices because every recursive call is on a strictly
shorter string.
-/

/-- `PRIMITIVE_TYPES` from `type-parser.ts`. -/
def PRIMITIVE_TYPES : List String :=
  ["string", "number", "boolean", "void", "never", "unknown", "any", "null", "undefined"]

/-- `EFFECT_TYPES` from `type-parser.ts`. -/
def EFFECT_TYPES : List String :=
  ["Effect", "Stream", "Layer", "Schedule", "Fiber", "Exit", "Cause"]

/-- `String.prototype.trim` on a character list. -/
def trimC (cs : List Char) : List Char :=
  ((cs.dropWhile Char.isWhitespace).reverse.dropWhile Char.isWhitespace).reverse

/-- One pass of `normalizeArrows` (`query.replace(/\s+->\s+/g, " => ")`):
at each position, if a whitespace run followed by `->` followed by a
whitespace run starts here, replace the whole match by `" => "` and
continue after it; otherwise keep the character.  Fuel-indexed (each
step consumes at least one character). -/
def normArrowsC : Nat → List Char → List Char
  | 0, cs => cs
  | _ + 1, [] => []
  | fuel + 1, c :: cs =>
    if c.isWhitespace then
      match (c :: cs).dropWhile Char.isWhitespace with
      | '-' :: '>' :: d :: ds =>
        if d.isWhitespace then
          ' ' :: '=' :: '>' :: ' ' :: normArrowsC fuel ((d :: ds).dropWhile Char.isWhitespace)
        else c :: normArrowsC fuel cs
      | _ => c :: normArrowsC fuel cs
    else c :: normArrowsC fuel cs

/-- `normalizeArrows` from `type-parser.ts`. -/
def normalizeArrows (cs : List Char) : List Char :=
  normArrowsC (cs.length + 1) cs

/-- The regular expression `^[A-Z]\d*$` of `isTypeVariable` in
`type-parser.ts`. -/
def isTypeVariableText (cs : List Char) : Bool :=
  match cs with
  | c :: rest => ('A' ≤ c ∧ c ≤ 'Z') ∧ rest.all Char.isDigit
  | [] => false

/-- The character-scanning state step of `splitTypeArgs`: depth is
incremented on `<` and `(`, decremented on `>` and `)`; a comma at
depth 0 splits (pushing the trimmed current piece, even when empty);
every other character is appended to the current piece. -/
def splitTypeArgsGo : List Char → Int → List Char → List (List Char) → List (List Char)
  | [], _, current, acc =>
    if (trimC current).length ≠ 0 then acc ++ [trimC current] else acc
  | c :: rest, depth, current, acc =>
    let depth := depth + (if c = '<' ∨ c = '(' then 1 else 0)
                       - (if c = '>' ∨ c = ')' then 1 else 0)
    if c = ',' ∧ depth = 0 then
      splitTypeArgsGo rest depth [] (acc ++ [trimC current])
    else
      splitTypeArgsGo rest depth (current ++ [c]) acc

/-- `splitTypeArgs` from `type-parser.ts`: split on top-level commas,
respecting nested angle-bracket and paren depth (square brackets are
not tracked here). -/
def splitTypeArgs (args : List Char) : List (List Char) :=
  splitTypeArgsGo args 0 [] []

/-- The scan of `findArrowPosition`: walk the characters (stopping when
fewer than two remain, as the source loop runs for `i < length - 1`),
adjusting depth on `<`/`(`/`[` and `>`/`)`/`]`, and return the first
index where the two next characters are `=>` at depth 0. -/
def findArrowGo : List Char → Int → Nat → Option Nat
  | c :: d :: rest, depth, i =>
    let depth := depth + (if c = '<' ∨ c = '(' ∨ c = '[' then 1 else 0)
                       - (if c = '>' ∨ c = ')' ∨ c = ']' then 1 else 0)
    if depth = 0 ∧ c = '=' ∧ d = '>' then some i
    else findArrowGo (d :: rest) depth (i + 1)
  | _, _, _ => none

/-- `findArrowPosition` from `type-parser.ts`. -/
def findArrowPosition (input : List Char) : Option Nat :=
  findArrowGo input 0 0

/-- The scan of `parseUnion`: find the first `|` at depth 0 whose left
and right sides are both nonempty after trimming, and return its
index. -/
def unionSplitGo (full : List Char) : List Char → Int → Nat → Option Nat
  | [], _, _ => none
  | c :: rest, depth, i =>
    let depth := depth + (if c = '<' ∨ c = '(' ∨ c = '[' then 1 else 0)
                       - (if c = '>' ∨ c = ')' ∨ c = ']' then 1 else 0)
    if depth = 0 ∧ c = '|' ∧
       (trimC (full.take i)).length ≠ 0 ∧ (trimC (full.drop (i + 1))).length ≠ 0 then
      some i
    else unionSplitGo full rest depth (i + 1)

/-- The `while` loop finding the matching close paren in the
parenthesized branch of `parseType` (depth only tracks parens); returns
the final value of `closeIdx` after the loop. -/
def findCloseGo : List Char → Int → Nat → Nat
  | [], _, idx => idx
  | c :: rest, depth, idx =>
    if depth > 0 then
      findCloseGo rest (depth + (if c = '(' then 1 else 0) - (if c = ')' then 1 else 0)) (idx + 1)
    else idx

/-- Character class `[A-Za-z_]` (first character of the identifier in
the generic-type regular expression). -/
def isIdentStart (c : Char) : Bool :=
  ('A' ≤ c ∧ c ≤ 'Z') ∨ ('a' ≤ c ∧ c ≤ 'z') ∨ c = '_'

/-- Character class `[A-Za-z0-9_]`. -/
def isIdentChar (c : Char) : Bool :=
  isIdentStart c ∨ ('0' ≤ c ∧ c ≤ '9')

/-- The regular expression `^([A-Za-z_][A-Za-z0-9_]*)\s*<(.+)>$` of the
generic-type branch: on success, the constructor name and the
angle-bracketed argument text. -/
def matchGenericText (cs : List Char) : Option (List Char × List Char) :=
  match cs with
  | c :: rest =>
    if isIdentStart c then
      let name := c :: rest.takeWhile isIdentChar
      let after := (rest.dropWhile isIdentChar).dropWhile Char.isWhitespace
      match after with
      | '<' :: tail =>
        match tail.getLast? with
        | some '>' => if tail.dropLast.length ≠ 0 then some (name, tail.dropLast) else none
        | _ => none
      | _ => none
    else none
  | [] => none

/-- `parseType` from `type-parser.ts`, fuel-indexed.  The branch order
is exactly the source's: parenthesized forms, bare arrow functions,
unions, the wildcard, generic constructor forms, tuples, type
variables, primitives, and the reference fallback. -/
def parseTypeC : Nat → List Char → TypeNode
  | 0, cs => .mk .unknown (String.mk (trimC cs)) none none none false false
  | fuel + 1, input0 =>
    let input := trimC input0
    if input.length = 0 then .mk .unknown "" none none none false false
    else if input.head? = some '(' then
      let closeIdx := findCloseGo (input.drop 1) 1 1 - 1
      let inner := trimC ((input.take closeIdx).drop 1)
      let rest := trimC (input.drop (closeIdx + 1))
      if rest.take 2 = ['=', '>'] then
        let returnPart := trimC (rest.drop 2)
        let params := if inner.length ≠ 0 then (splitTypeArgs inner).map (parseTypeC fuel) else []
        .mk .function (String.mk input) (some (params ++ [parseTypeC fuel returnPart]))
          none none false false
      else parseTypeC fuel inner
    else
      match findArrowPosition input with
      | some arrowPos =>
        let paramPart := trimC (input.take arrowPos)
        let returnPart := trimC (input.drop (arrowPos + 2))
        let params := if paramPart.contains ',' then (splitTypeArgs paramPart).map (parseTypeC fuel)
                      else [parseTypeC fuel paramPart]
        .mk .function (String.mk input) (some (params ++ [parseTypeC fuel returnPart]))
          none none false false
      | none =>
        match unionSplitGo input input 0 0 with
        | some i =>
          .mk .union (String.mk input)
            (some [parseTypeC fuel (trimC (input.take i)),
                   parseTypeC fuel (trimC (input.drop (i + 1)))])
            none none false false
        | none =>
          if input = ['*'] then .mk .wildcard "*" none none none false true
          else
            match matchGenericText input with
            | some (name, argsStr) =>
              let args := (splitTypeArgs argsStr).map (parseTypeC fuel)
              let kind : TypeKind :=
                if EFFECT_TYPES.contains (String.mk name) then .effect else .generic
              .mk kind (String.mk input) none (some (String.mk name)) (some args) false false
            | none =>
              if input.head? = some '[' ∧ input.getLast? = some ']' then
                let inner := trimC (input.drop 1).dropLast
                .mk .tuple (String.mk input)
                  (some ((splitTypeArgs inner).map (parseTypeC fuel))) none none false false
              else if isTypeVariableText input then
                .mk .typeVariable (String.mk input) none none none true false
              else if PRIMITIVE_TYPES.contains (jsToLower (String.mk input)) then
                .mk .primitive (jsToLower (String.mk input)) none none none false false
              else
                .mk .reference (String.mk input) none (some (String.mk input)) none false false

/-- `parseTypeQuery` from `type-parser.ts`: trim, reject empty input,
normalize arrows, parse.  The `try/catch` of the source corresponds to
this being a total function. -/
def parseTypeQuery (query : String) : Option TypeNode :=
  let q := trimC query.data
  if q.length = 0 then none
  else some (parseTypeC (q.length + 1) (normalizeArrows q))

/-!
The search orchestrator (`type-search.ts`) and the catalog data shapes
it consumes (`types/index.ts`).  Catalog metadata fields that the
search core never reads (description, examples, tags, ...) are elided.
-/

/-- A declared type parameter of a parsed signature (`TypeParameter`). -/
structure TypeParameter where
  name : String
  constraint : Option TypeNode
  default : Option TypeNode

/-- A declared value parameter of a parsed signature (`Parameter`). -/
structure Parameter where
  name : String
  type : TypeNode
  optional : Bool

/-- A pre-parsed signature supplied by the indexer (`ParsedSignature`). -/
structure ParsedSignature where
  raw : String
  typeParameters : List TypeParameter
  parameters : List Parameter
  returnType : TypeNode

/-- A catalog entry (`FunctionEntry`), restricted to the fields the
search core reads. -/
structure FunctionEntry where
  id : String
  name : String
  module : String
  package : String
  signature : String
  signatureParsed : Option ParsedSignature

/-- One search result (`TypeSearchResult`). -/
structure TypeSearchResult where
  entry : FunctionEntry
  matchResult : TypeMatchResult

/-- `signatureToTypeNode` from `type-search.ts`: the synthetic function
node built from the parameter types followed by the return type. -/
def signatureToTypeNode (sig : ParsedSignature) : TypeNode :=
  .mk .function sig.raw (some ((sig.parameters.map (·.type)) ++ [sig.returnType]))
    none none false false

/-- `isComplexType` from `type-search.ts`. -/
def isComplexType (type : TypeNode) : Bool :=
  type.kind = .generic ∨ type.kind = .effect ∨ type.kind = .function

/-- The parameter-strategy loop of `matchFunction`: try the query
against each declared parameter type in order (each attempt on a fresh
context) and keep the first match, scaled by 0.6. -/
def matchParamsGo (query : TypeNode) : List Parameter → TypeMatchResult
  | [] => noMatchR
  | p :: rest =>
    let paramMatch := (unifyTypes query p.type [] 0).1
    if paramMatch.matches then { paramMatch with score := paramMatch.score * 0.6 }
    else matchParamsGo query rest

/-- `matchFunction` from `type-search.ts`: full-signature strategy,
then return-type-only (score × 0.75), then — only for non-complex
queries — first-matching-parameter (score × 0.6). -/
def matchFunction (query : TypeNode) (signature : ParsedSignature) : TypeMatchResult :=
  let fullType := signatureToTypeNode signature
  let fullMatch := (unifyTypes query fullType [] 0).1
  if fullMatch.matches then fullMatch
  else
    let returnMatch := (unifyTypes query signature.returnType [] 0).1
    if returnMatch.matches then { returnMatch with score := returnMatch.score * 0.75 }
    else if isComplexType query = false then matchParamsGo query signature.parameters
    else noMatchR

/-- The candidate list of `searchByType` before sorting: entries with a
parsed signature whose match result passes the `matches && score > 30`
filter, in catalog order. -/
def searchCandidates (queryType : TypeNode) (functions : List FunctionEntry) :
    List TypeSearchResult :=
  functions.filterMap (fun entry =>
    match entry.signatureParsed with
    | none => none
    | some sig =>
      let matchResult := matchFunction queryType sig
      if matchResult.matches = true ∧ matchResult.score > 30 then
        some { entry := entry, matchResult := matchResult }
      else none)

/-- Stable insertion step for the descending sort
(`results.sort((a, b) => b.matchResult.score - a.matchResult.score)`,
which JavaScript guarantees to be stable): processing the candidate
list from the right, each element is placed after every element with a
strictly larger score and before elements with equal score, which
preserves the original order among ties. -/
def insertDesc (x : TypeSearchResult) : List TypeSearchResult → List TypeSearchResult
  | [] => [x]
  | y :: ys =>
    if y.matchResult.score > x.matchResult.score then y :: insertDesc x ys
    else x :: y :: ys

/-- Stable sort of the results, descending by score. -/
def sortByScoreDesc : List TypeSearchResult → List TypeSearchResult
  | [] => []
  | x :: xs => insertDesc x (sortByScoreDesc xs)

/-- `searchByType` from `type-search.ts`: parse once, match every
entry, filter, sort descending by score (stable), truncate to the
limit. -/
def searchByType (query : String) (functions : List FunctionEntry) (limit : Nat) :
    List TypeSearchResult :=
  match parseTypeQuery query with
  | none => []
  | some queryType => (sortByScoreDesc (searchCandidates queryType functions)).take limit

/-!
Score bounds: every unification result has score at most 100, hence so
does every orchestrator result.
-/

lemma unifyParamsGo_count (unify : Unifier) (ps : List (TypeNode × TypeNode)) :
    ∀ bs total count parts,
      (unifyParamsGo unify ps bs total count parts).2.1 = count + ps.length := by
  induction ps with
  | nil => intro bs total count parts; simp [unifyParamsGo]
  | cons p rest ih =>
    intro bs total count parts
    obtain ⟨qp, tp⟩ := p
    simp only [unifyParamsGo, List.length_cons]
    split
    · rw [ih]; omega
    · rw [ih]; omega

lemma unifyParamsGo_total_le (unify : Unifier)
    (h : ∀ q t bs, ((unify q t bs).1.score ≤ 100)) (ps : List (TypeNode × TypeNode)) :
    ∀ bs total count parts,
      (unifyParamsGo unify ps bs total count parts).1 ≤ total + 100 * ps.length := by
  induction ps with
  | nil => intro bs total count parts; simp [unifyParamsGo]
  | cons p rest ih =>
    intro bs total count parts
    obtain ⟨qp, tp⟩ := p
    simp only [unifyParamsGo, List.length_cons]
    split
    · have h1 := ih (unify qp tp bs).2 (total + (unify qp tp bs).1.score) (count + 1)
        (parts ++ (unify qp tp bs).1.matchedParts)
      have h2 := h qp tp bs
      push_cast
      push_cast at h1
      linarith
    · have h1 := ih (unify qp tp bs).2 (total + 20) (count + 1) parts
      push_cast
      push_cast at h1
      linarith

lemma unifyParametersF_score_le (unify : Unifier)
    (h : ∀ q t bs, ((unify q t bs).1.score ≤ 100)) (qps tps : List TypeNode) (bs : Bindings) :
    (unifyParametersF unify qps tps bs).1.score ≤ 100 := by
  unfold unifyParametersF
  dsimp only
  split
  · norm_num [mkMatch]
  · split
    · norm_num [mkMatch]
    · rename_i hne hcount
      simp only [mkMatch]
      have hc : (unifyParamsGo unify (qps.zip tps) bs 0 0 []).2.1 = (qps.zip tps).length := by
        rw [unifyParamsGo_count]; omega
      have ht : (unifyParamsGo unify (qps.zip tps) bs 0 0 []).1
          ≤ 100 * ((qps.zip tps).length : ℚ) := by
        have := unifyParamsGo_total_le unify h (qps.zip tps) bs 0 0 []
        linarith
      have hpos : (0 : ℚ) < ((unifyParamsGo unify (qps.zip tps) bs 0 0 []).2.1 : ℚ) := by
        have : 0 < (unifyParamsGo unify (qps.zip tps) bs 0 0 []).2.1 :=
          Nat.pos_of_ne_zero hcount
        exact_mod_cast this
      have hdiv : (unifyParamsGo unify (qps.zip tps) bs 0 0 []).1 /
          ((unifyParamsGo unify (qps.zip tps) bs 0 0 []).2.1 : ℚ) ≤ 100 := by
        rw [div_le_iff₀ hpos]
        rw [hc]
        linarith
      split
      · exact min_le_left ..
      · exact hdiv

lemma unifyArgsGo_some_le (unify : Unifier)
    (h : ∀ q t bs, ((unify q t bs).1.score ≤ 100)) (ps : List (TypeNode × TypeNode)) :
    ∀ bs total parts total' parts' bs',
      unifyArgsGo unify ps bs total parts = (some (total', parts'), bs') →
      total' ≤ total + 100 * ps.length := by
  induction ps with
  | nil =>
    intro bs total parts total' parts' bs' heq
    simp only [unifyArgsGo, Prod.mk.injEq, Option.some.injEq] at heq
    obtain ⟨⟨h1, _⟩, _⟩ := heq
    simp [← h1]
  | cons p rest ih =>
    intro bs total parts total' parts' bs' heq
    obtain ⟨qa, ta⟩ := p
    simp only [unifyArgsGo] at heq
    rw [List.length_cons]
    split at heq
    · have h1 := ih _ _ _ _ _ _ heq
      have h2 := h qa ta bs
      push_cast
      push_cast at h1
      linarith
    · simp at heq

lemma unifyTypeArgumentsF_score_le (unify : Unifier)
    (h : ∀ q t bs, ((unify q t bs).1.score ≤ 100)) (qas tas : List TypeNode) (bs : Bindings) :
    (unifyTypeArgumentsF unify qas tas bs).1.score ≤ 100 := by
  unfold unifyTypeArgumentsF
  dsimp only
  by_cases hmin : min qas.length tas.length = 0
  · rw [if_pos hmin]
    split <;> norm_num [mkMatch]
  · rw [if_neg hmin]
    cases heq : unifyArgsGo unify (qas.zip tas) bs 0 [] with
    | mk res bs1 =>
      cases res with
      | none => norm_num [noMatchR]
      | some tp =>
        obtain ⟨total', parts'⟩ := tp
        simp only [mkMatch]
        have hle : total' ≤ 100 * ((qas.zip tas).length : ℚ) := by
          have := unifyArgsGo_some_le unify h (qas.zip tas) bs 0 [] total' parts' bs1 heq
          linarith
        rw [List.length_zip] at hle
        have hpos : (0 : ℚ) < ((min qas.length tas.length : Nat) : ℚ) := by
          have : 0 < min qas.length tas.length := Nat.pos_of_ne_zero hmin
          exact_mod_cast this
        have hdiv : total' / ((min qas.length tas.length : Nat) : ℚ) ≤ 100 := by
          rw [div_le_iff₀ hpos]
          linarith
        split
        · linarith
        · exact hdiv

lemma unifyTupleF_score_le (unify : Unifier)
    (h : ∀ q t bs, ((unify q t bs).1.score ≤ 100)) (q t : TypeNode) (bs : Bindings) :
    (unifyTupleF unify q t bs).1.score ≤ 100 := by
  unfold unifyTupleF
  split
  · rename_i qcs tcs hq ht
    by_cases hlen : qcs.length ≠ tcs.length
    · rw [if_pos hlen]; norm_num [noMatchR]
    · rw [if_neg hlen]
      push_neg at hlen
      cases heq : unifyArgsGo unify (qcs.zip tcs) bs 0 [] with
      | mk res bs1 =>
        cases res with
        | none => norm_num [noMatchR]
        | some tp =>
          obtain ⟨total', parts'⟩ := tp
          simp only [mkMatch]
          have hle : total' ≤ 100 * ((qcs.zip tcs).length : ℚ) := by
            have := unifyArgsGo_some_le unify h (qcs.zip tcs) bs 0 [] total' parts' bs1 heq
            linarith
          have hzl : (qcs.zip tcs).length = qcs.length := by
            rw [List.length_zip]; omega
          rw [hzl] at hle
          rcases Nat.eq_zero_or_pos qcs.length with hz | hp
          · rw [hz]
            norm_num
          · have hpos : (0 : ℚ) < (qcs.length : ℚ) := by exact_mod_cast hp
            rw [div_le_iff₀ hpos]
            linarith
  · norm_num [noMatchR]

lemma unifyFunctionTypesF_score_le (unify : Unifier)
    (h : ∀ q t bs, ((unify q t bs).1.score ≤ 100)) (q t : TypeNode) (bs : Bindings) :
    (unifyFunctionTypesF unify q t bs).1.score ≤ 100 := by
  unfold unifyFunctionTypesF
  dsimp only
  split
  · norm_num [noMatchR]
  · split
    · rename_i queryReturn targetReturn hq ht
      split
      · norm_num [noMatchR]
      · split
        · simp only [mkMatch]
          have := h queryReturn targetReturn bs
          nlinarith
        · simp only [mkMatch]
          have h1 := h queryReturn targetReturn bs
          have h2 := unifyParametersF_score_le unify h (q.children.getD []).dropLast
            (t.children.getD []).dropLast (unify queryReturn targetReturn bs).2
          nlinarith
    · norm_num [noMatchR]

lemma unionBestGo_score_le (unify : Unifier)
    (h : ∀ q t bs, ((unify q t bs).1.score ≤ 100)) (qm : TypeNode) (bs : Bindings)
    (tcs : List TypeNode) :
    ∀ b bm, bm.score ≤ 100 → (unionBestGo unify qm bs tcs b bm).2.score ≤ 100 := by
  induction tcs with
  | nil => intro b bm hbm; simpa [unionBestGo] using hbm
  | cons tm rest ih =>
    intro b bm hbm
    simp only [unionBestGo]
    split
    · exact ih _ _ (h qm tm bs)
    · exact ih _ _ hbm

lemma unifyUnionGo_some_le (unify : Unifier)
    (h : ∀ q t bs, ((unify q t bs).1.score ≤ 100)) (tcs : List TypeNode) (bs : Bindings)
    (qcs : List TypeNode) :
    ∀ total parts total' parts',
      unifyUnionGo unify tcs bs qcs total parts = some (total', parts') →
      total' ≤ total + 100 * qcs.length := by
  induction qcs with
  | nil =>
    intro total parts total' parts' heq
    simp only [unifyUnionGo, Option.some.injEq, Prod.mk.injEq] at heq
    obtain ⟨h1, _⟩ := heq
    simp [← h1]
  | cons qm rest ih =>
    intro total parts total' parts' heq
    simp only [unifyUnionGo] at heq
    rw [List.length_cons]
    split at heq
    · simp at heq
    · have hbest : (unionBestGo unify qm bs tcs 0 noMatchR).2.score ≤ 100 :=
        unionBestGo_score_le unify h qm bs tcs 0 noMatchR (by norm_num [noMatchR])
      have h1 := ih _ _ total' parts' heq
      push_cast
      push_cast at h1
      linarith

lemma unifyUnionTypesF_score_le (unify : Unifier)
    (h : ∀ q t bs, ((unify q t bs).1.score ≤ 100)) (q t : TypeNode) (bs : Bindings) :
    (unifyUnionTypesF unify q t bs).1.score ≤ 100 := by
  unfold unifyUnionTypesF
  dsimp only
  split
  · norm_num [noMatchR]
  · rename_i hne
    cases heq : unifyUnionGo unify (t.children.getD []) bs (q.children.getD []) 0 [] with
    | none => norm_num [noMatchR]
    | some tp =>
      obtain ⟨total', parts'⟩ := tp
      simp only [mkMatch]
      have hle : total' ≤ 100 * ((q.children.getD []).length : ℚ) := by
        have := unifyUnionGo_some_le unify h (t.children.getD []) bs (q.children.getD [])
          0 [] total' parts' heq
        linarith
      have hp : 0 < (q.children.getD []).length := by
        rcases Nat.eq_zero_or_pos (q.children.getD []).length with hz | hp
        · exact absurd (Or.inl hz) hne
        · exact hp
      have hpos : (0 : ℚ) < ((q.children.getD []).length : ℚ) := by exact_mod_cast hp
      rw [div_le_iff₀ hpos]
      linarith

lemma unifyAtLimit_score_le (q t : TypeNode) (bs : Bindings) :
    (unifyAtLimit q t bs).1.score ≤ 100 := by
  unfold unifyAtLimit
  split
  · norm_num [mkMatch]
  · split
    · norm_num [mkMatch]
    · norm_num [noMatchR]

lemma unifyStep_score_le (unify : Unifier)
    (h : ∀ q t bs, ((unify q t bs).1.score ≤ 100)) (q t : TypeNode) (bs : Bindings) :
    (unifyStep unify q t bs).1.score ≤ 100 := by
  unfold unifyStep
  by_cases h1 : q.isWildcard = true
  · rw [if_pos h1]; norm_num [mkMatch]
  · rw [if_neg h1]
    by_cases h2 : q.isTypeVariable = true
    · rw [if_pos h2]
      cases hg : bs.get q.text with
      | some ex =>
        dsimp only
        split
        · norm_num [mkMatch]
        · split
          · norm_num [mkMatch]
          · split
            · norm_num [noMatchR]
            · split
              · norm_num [noMatchR]
              · norm_num [mkMatch]
      | none => dsimp only; norm_num [mkMatch]
    · rw [if_neg h2]
      by_cases h3 : t.isTypeVariable = true
      · rw [if_pos h3]; norm_num [mkMatch]
      · rw [if_neg h3]
        by_cases h4 : q.kind = TypeKind.function ∧ t.kind = TypeKind.function
        · rw [if_pos h4]; exact unifyFunctionTypesF_score_le unify h q t bs
        · rw [if_neg h4]
          by_cases h5 : kindsCompatible q.kind t.kind = false
          · rw [if_pos h5]; norm_num [noMatchR]
          · rw [if_neg h5]
            by_cases h6 : (q.kind = TypeKind.generic ∨ q.kind = TypeKind.effect) ∧
                q.typeArguments.isSome ∧ t.typeArguments.isSome
            · rw [if_pos h6]
              split
              · norm_num [noMatchR]
              · exact unifyTypeArgumentsF_score_le unify h _ _ bs
            · rw [if_neg h6]
              by_cases h7 : q.kind = TypeKind.primitive
              · rw [if_pos h7]
                split
                · norm_num [mkMatch]
                · norm_num [noMatchR]
              · rw [if_neg h7]
                by_cases h8 : q.kind = TypeKind.reference
                · rw [if_pos h8]
                  split
                  · norm_num [mkMatch]
                  · norm_num [noMatchR]
                · rw [if_neg h8]
                  by_cases h9 : q.kind = TypeKind.union ∧ t.kind = TypeKind.union
                  · rw [if_pos h9]; exact unifyUnionTypesF_score_le unify h q t bs
                  · rw [if_neg h9]
                    by_cases h10 : q.kind = TypeKind.tuple ∧ t.kind = TypeKind.tuple
                    · rw [if_pos h10]; exact unifyTupleF_score_le unify h q t bs
                    · rw [if_neg h10]
                      split
                      · norm_num [mkMatch]
                      · norm_num [noMatchR]

lemma unifyTypesAux_score_le (fuel : Nat) :
    ∀ q t bs, ((unifyTypesAux fuel q t bs).1.score ≤ 100) := by
  induction fuel with
  | zero => intro q t bs; exact unifyAtLimit_score_le q t bs
  | succ n ih => intro q t bs; exact unifyStep_score_le (unifyTypesAux n) ih q t bs

/-- Every unification result has score at most 100. -/
lemma unifyTypes_score_le (q t : TypeNode) (bs : Bindings) (depth : Nat) :
    (unifyTypes q t bs depth).1.score ≤ 100 :=
  unifyTypesAux_score_le (MAX_UNIFY_DEPTH - depth) q t bs

lemma matchParamsGo_score_le (q : TypeNode) (ps : List Parameter) :
    (matchParamsGo q ps).score ≤ 100 := by
  induction ps with
  | nil => norm_num [matchParamsGo, noMatchR]
  | cons p rest ih =>
    simp only [matchParamsGo]
    split
    · simp only
      have := unifyTypes_score_le q p.type [] 0
      nlinarith
    · exact ih

/-- Every orchestrator match result has score at most 100. -/
lemma matchFunction_score_le (q : TypeNode) (sig : ParsedSignature) :
    (matchFunction q sig).score ≤ 100 := by
  unfold matchFunction
  dsimp only
  split
  · exact unifyTypes_score_le q (signatureToTypeNode sig) [] 0
  · split
    · simp only
      have := unifyTypes_score_le q sig.returnType [] 0
      nlinarith
    · split
      · exact matchParamsGo_score_le q sig.parameters
      · norm_num [noMatchR]

/-!
Branch equations for `unifyStep`: under the preconditions that route a
pair of nodes into a given rule of `unifyTypes`, the step equals that
rule's body.
-/

lemma unifyStep_typeVar_unbound (unify : Unifier) (q t : TypeNode) (bs : Bindings)
    (hw : q.isWildcard = false) (hv : q.isTypeVariable = true)
    (hg : bs.get q.text = none) :
    unifyStep unify q t bs =
      (mkMatch 90 (bs.set q.text t) [t.text], bs.set q.text t) := by
  unfold unifyStep
  rw [if_neg (by simp [hw]), if_pos hv, hg]

lemma unifyStep_typeVar_bound (unify : Unifier) (q t : TypeNode) (bs : Bindings)
    (ex : TypeNode) (hw : q.isWildcard = false) (hv : q.isTypeVariable = true)
    (hg : bs.get q.text = some ex) :
    unifyStep unify q t bs =
      (if ex.text = t.text then (mkMatch 90 bs [t.text], bs)
       else if ex.isTypeVariable ∨ t.isTypeVariable then (mkMatch 85 bs [t.text], bs)
       else if ex.kind ≠ t.kind then (noMatchR, bs)
       else if strTruthy ex.typeName ∧ strTruthy t.typeName ∧ ex.typeName ≠ t.typeName then
         (noMatchR, bs)
       else (mkMatch 80 bs [t.text], bs)) := by
  unfold unifyStep
  rw [if_neg (by simp [hw]), if_pos hv, hg]

lemma unifyStep_function (unify : Unifier) (q t : TypeNode) (bs : Bindings)
    (hw : q.isWildcard = false) (hv : q.isTypeVariable = false)
    (htv : t.isTypeVariable = false)
    (hqk : q.kind = TypeKind.function) (htk : t.kind = TypeKind.function) :
    unifyStep unify q t bs = unifyFunctionTypesF unify q t bs := by
  unfold unifyStep
  rw [if_neg (by simp [hw]), if_neg (by simp [hv]), if_neg (by simp [htv]),
    if_pos ⟨hqk, htk⟩]

lemma unifyStep_generic (unify : Unifier) (q t : TypeNode) (bs : Bindings)
    (hw : q.isWildcard = false) (hv : q.isTypeVariable = false)
    (htv : t.isTypeVariable = false)
    (hqk : q.kind = TypeKind.generic ∨ q.kind = TypeKind.effect)
    (htk : t.kind = TypeKind.generic ∨ t.kind = TypeKind.effect)
    (hqa : q.typeArguments.isSome) (hta : t.typeArguments.isSome) :
    unifyStep unify q t bs =
      (if q.typeName.map jsToLower ≠ t.typeName.map jsToLower then (noMatchR, bs)
       else unifyTypeArgumentsF unify (q.typeArguments.getD []) (t.typeArguments.getD []) bs) := by
  unfold unifyStep
  rw [if_neg (by simp [hw]), if_neg (by simp [hv]), if_neg (by simp [htv]),
    if_neg (by rcases hqk with h | h <;> simp [h]),
    if_neg (by rcases hqk with h | h <;> rcases htk with h' | h' <;>
      simp [kindsCompatible, h, h']),
    if_pos ⟨hqk, hqa, hta⟩]

lemma unifyStep_union (unify : Unifier) (q t : TypeNode) (bs : Bindings)
    (hw : q.isWildcard = false) (hv : q.isTypeVariable = false)
    (htv : t.isTypeVariable = false)
    (hqk : q.kind = TypeKind.union) (htk : t.kind = TypeKind.union) :
    unifyStep unify q t bs = unifyUnionTypesF unify q t bs := by
  unfold unifyStep
  rw [if_neg (by simp [hw]), if_neg (by simp [hv]), if_neg (by simp [htv]),
    if_neg (by simp [hqk]), if_neg (by simp [kindsCompatible, hqk, htk]),
    if_neg (by simp [hqk]), if_neg (by simp [hqk]), if_neg (by simp [hqk]),
    if_pos ⟨hqk, htk⟩]

lemma unifyStep_tuple (unify : Unifier) (q t : TypeNode) (bs : Bindings)
    (hw : q.isWildcard = false) (hv : q.isTypeVariable = false)
    (htv : t.isTypeVariable = false)
    (hqk : q.kind = TypeKind.tuple) (htk : t.kind = TypeKind.tuple) :
    unifyStep unify q t bs = unifyTupleF unify q t bs := by
  unfold unifyStep
  rw [if_neg (by simp [hw]), if_neg (by simp [hv]), if_neg (by simp [htv]),
    if_neg (by simp [hqk]), if_neg (by simp [kindsCompatible, hqk, htk]),
    if_neg (by simp [hqk]), if_neg (by simp [hqk]), if_neg (by simp [hqk]),
    if_neg (by simp [hqk]), if_pos ⟨hqk, htk⟩]

/-- Below the depth limit, `unifyTypes` takes one `unifyStep` whose
recursive calls run at depth + 1. -/
lemma unifyTypes_eq_step (q t : TypeNode) (bs : Bindings) (depth : Nat)
    (hd : depth < MAX_UNIFY_DEPTH) :
    unifyTypes q t bs depth =
      unifyStep (fun a b c => unifyTypes a b c (depth + 1)) q t bs := by
  have h1 : MAX_UNIFY_DEPTH - depth = (MAX_UNIFY_DEPTH - (depth + 1)) + 1 := by
    unfold MAX_UNIFY_DEPTH at hd ⊢
    omega
  show unifyTypesAux (MAX_UNIFY_DEPTH - depth) q t bs = _
  rw [h1]
  show unifyStep (unifyTypesAux (MAX_UNIFY_DEPTH - (depth + 1))) q t bs = _
  rfl

/-- At or beyond the depth limit, `unifyTypes` is the degenerate
text-level comparison. -/
lemma unifyTypes_eq_atLimit (q t : TypeNode) (bs : Bindings) (depth : Nat)
    (hd : MAX_UNIFY_DEPTH ≤ depth) :
    unifyTypes q t bs depth = unifyAtLimit q t bs := by
  have h1 : MAX_UNIFY_DEPTH - depth = 0 := by omega
  show unifyTypesAux (MAX_UNIFY_DEPTH - depth) q t bs = _
  rw [h1]
  rfl

/-!
Properties of the stable descending sort used by `searchByType`.
-/

lemma insertDesc_perm (x : TypeSearchResult) (l : List TypeSearchResult) :
    List.Perm (insertDesc x l) (x :: l) := by
  induction l with
  | nil => simp [insertDesc]
  | cons y ys ih =>
    simp only [insertDesc]
    split
    · exact List.Perm.trans (ih.cons y) (List.Perm.swap ..)
    · exact List.Perm.refl _

lemma sortByScoreDesc_perm (l : List TypeSearchResult) :
    List.Perm (sortByScoreDesc l) l := by
  induction l with
  | nil => simp [sortByScoreDesc]
  | cons x xs ih =>
    simp only [sortByScoreDesc]
    exact List.Perm.trans (insertDesc_perm ..) (ih.cons x)

lemma insertDesc_pairwise (x : TypeSearchResult) (l : List TypeSearchResult)
    (h : l.Pairwise (fun a b => b.matchResult.score ≤ a.matchResult.score)) :
    (insertDesc x l).Pairwise (fun a b => b.matchResult.score ≤ a.matchResult.score) := by
  induction l with
  | nil => simp [insertDesc]
  | cons y ys ih =>
    rw [List.pairwise_cons] at h
    obtain ⟨hy, hys⟩ := h
    simp only [insertDesc]
    split
    · rename_i hgt
      rw [List.pairwise_cons]
      refine ⟨?_, ih hys⟩
      intro b hb
      rcases List.mem_cons.mp ((insertDesc_perm x ys).mem_iff.mp hb) with hbx | hbys
      · rw [hbx]
        exact le_of_lt hgt
      · exact hy b hbys
    · rename_i hle
      push_neg at hle
      rw [List.pairwise_cons]
      refine ⟨?_, List.pairwise_cons.mpr ⟨hy, hys⟩⟩
      intro b hb
      rcases List.mem_cons.mp hb with hby | hbys
      · rw [hby]; exact hle
      · exact le_trans (hy b hbys) hle

lemma sortByScoreDesc_pairwise (l : List TypeSearchResult) :
    (sortByScoreDesc l).Pairwise (fun a b => b.matchResult.score ≤ a.matchResult.score) := by
  induction l with
  | nil => simp [sortByScoreDesc]
  | cons x xs ih => exact insertDesc_pairwise x (sortByScoreDesc xs) ih

lemma insertDesc_filter_score (x : TypeSearchResult) (l : List TypeSearchResult) (s : ℚ) :
    (insertDesc x l).filter (fun r => r.matchResult.score = s) =
      if x.matchResult.score = s then
        x :: l.filter (fun r => r.matchResult.score = s)
      else l.filter (fun r => r.matchResult.score = s) := by
  induction l with
  | nil =>
    by_cases hxs : x.matchResult.score = s <;> simp [insertDesc, hxs]
  | cons y ys ih =>
    simp only [insertDesc]
    split
    · rename_i hgt
      by_cases hxs : x.matchResult.score = s
      · have hys' : ¬ (y.matchResult.score = s) := by
          intro hy
          rw [hxs, hy] at hgt
          exact lt_irrefl s hgt
        simp [List.filter_cons, ih, hxs, hys']
      · simp [List.filter_cons, ih, hxs]
    · by_cases hxs : x.matchResult.score = s <;> simp [List.filter_cons, hxs]

lemma sortByScoreDesc_filter_score (l : List TypeSearchResult) (s : ℚ) :
    (sortByScoreDesc l).filter (fun r => r.matchResult.score = s) =
      l.filter (fun r => r.matchResult.score = s) := by
  induction l with
  | nil => simp [sortByScoreDesc]
  | cons x xs ih =>
    simp only [sortByScoreDesc]
    rw [insertDesc_filter_score]
    by_cases hxs : x.matchResult.score = s <;> simp [List.filter_cons, ih, hxs]

/-!
Specification-level descriptions of the unifier's loops, used to state
the claims without restating the implementation: `seqUnify` lists the
pairwise results with the binding table threaded left to right (and no
short-circuiting), and the union rules are described by `List.find?`,
sums and folded maxima.
-/

/-- The sequence of pairwise unification results, threading the binding
table through the calls from left to right. -/
def seqUnify (unify : Unifier) : List (TypeNode × TypeNode) → Bindings → List TypeMatchResult
  | [], _ => []
  | (a, b) :: rest, bs => (unify a b bs).1 :: seqUnify unify rest (unify a b bs).2

lemma unifyArgsGo_fst_of_all (unify : Unifier) (ps : List (TypeNode × TypeNode)) :
    ∀ bs, (∀ r ∈ seqUnify unify ps bs, r.matches = true) →
      ∀ total parts, ∃ parts',
        (unifyArgsGo unify ps bs total parts).1 =
          some (total + ((seqUnify unify ps bs).map (·.score)).sum, parts') := by
  induction ps with
  | nil =>
    intro bs _ total parts
    exact ⟨parts, by simp [unifyArgsGo, seqUnify]⟩
  | cons p rest ih =>
    intro bs hall total parts
    obtain ⟨qa, ta⟩ := p
    have h0 : (unify qa ta bs).1.matches = true := by
      apply hall
      simp [seqUnify]
    have hrest : ∀ r ∈ seqUnify unify rest (unify qa ta bs).2, r.matches = true := by
      intro r hr
      apply hall
      simp [seqUnify, hr]
    obtain ⟨parts', hp⟩ := ih (unify qa ta bs).2 hrest (total + (unify qa ta bs).1.score)
      (parts ++ (unify qa ta bs).1.matchedParts)
    refine ⟨parts', ?_⟩
    simp only [unifyArgsGo, h0, if_pos, seqUnify, List.map_cons, List.sum_cons]
    rw [hp]
    ring_nf

lemma unifyArgsGo_fst_of_exists (unify : Unifier) (ps : List (TypeNode × TypeNode)) :
    ∀ bs, (∃ r ∈ seqUnify unify ps bs, r.matches = false) →
      ∀ total parts, (unifyArgsGo unify ps bs total parts).1 = none := by
  induction ps with
  | nil =>
    intro bs hex total parts
    simp [seqUnify] at hex
  | cons p rest ih =>
    intro bs hex total parts
    obtain ⟨qa, ta⟩ := p
    by_cases h0 : (unify qa ta bs).1.matches = true
    · have hrest : ∃ r ∈ seqUnify unify rest (unify qa ta bs).2, r.matches = false := by
        obtain ⟨r, hr, hf⟩ := hex
        simp only [seqUnify, List.mem_cons] at hr
        rcases hr with hr0 | hr'
        · rw [hr0] at hf
          rw [h0] at hf
          simp at hf
        · exact ⟨r, hr', hf⟩
      simp only [unifyArgsGo, h0, if_pos]
      exact ih (unify qa ta bs).2 hrest ..
    · simp only [unifyArgsGo]
      rw [if_neg h0]

lemma unifyParamsGo_fst_eq_seq (unify : Unifier) (ps : List (TypeNode × TypeNode)) :
    ∀ bs total count parts,
      (unifyParamsGo unify ps bs total count parts).1 =
        total + ((seqUnify unify ps bs).map
          (fun r => if r.matches = true then r.score else 20)).sum := by
  induction ps with
  | nil => intro bs total count parts; simp [unifyParamsGo, seqUnify]
  | cons p rest ih =>
    intro bs total count parts
    obtain ⟨qp, tp⟩ := p
    simp only [unifyParamsGo, seqUnify, List.map_cons, List.sum_cons]
    split
    · rw [ih]; ring
    · rw [ih]; ring

lemma matchParamsGo_eq_find (q : TypeNode) (ps : List Parameter) :
    matchParamsGo q ps =
      match ps.find? (fun p => (unifyTypes q p.type [] 0).1.matches) with
      | some p =>
        { (unifyTypes q p.type [] 0).1 with
            score := (unifyTypes q p.type [] 0).1.score * 0.6 }
      | none => noMatchR := by
  induction ps with
  | nil => simp [matchParamsGo, List.find?]
  | cons p rest ih =>
    by_cases hm : (unifyTypes q p.type [] 0).1.matches = true
    · simp [matchParamsGo, List.find?, hm]
    · rw [Bool.not_eq_true] at hm
      simp [matchParamsGo, List.find?, hm, ih]

lemma unionBestGo_invariant (unify : Unifier) (qm : TypeNode) (bs : Bindings)
    (tcs : List TypeNode) :
    ∀ b bm, 0 ≤ b → (bm.matches = true → bm.score = b) →
      (0 ≤ (unionBestGo unify qm bs tcs b bm).1
        ∧ ((unionBestGo unify qm bs tcs b bm).2.matches = true →
            (unionBestGo unify qm bs tcs b bm).2.score =
              (unionBestGo unify qm bs tcs b bm).1)) := by
  induction tcs with
  | nil =>
    intro b bm hb hbm
    exact ⟨hb, hbm⟩
  | cons tm rest ih =>
    intro b bm hb hbm
    simp only [unionBestGo]
    split
    · rename_i hcond
      exact ih _ _ (le_of_lt (lt_of_le_of_lt hb hcond.2)) (fun _ => rfl)
    · exact ih _ _ hb hbm

lemma unionBestGo_fst_eq_foldMax (unify : Unifier) (qm : TypeNode) (bs : Bindings)
    (tcs : List TypeNode) :
    ∀ b bm, 0 ≤ b →
      (unionBestGo unify qm bs tcs b bm).1 =
        (tcs.map (fun tm =>
          if (unify qm tm bs).1.matches = true then (unify qm tm bs).1.score else 0)).foldl
          max b := by
  induction tcs with
  | nil => intro b bm hb; simp [unionBestGo]
  | cons tm rest ih =>
    intro b bm hb
    simp only [unionBestGo, List.map_cons, List.foldl_cons]
    by_cases hm : (unify qm tm bs).1.matches = true
    · by_cases hgt : (unify qm tm bs).1.score > b
      · rw [if_pos ⟨hm, hgt⟩, if_pos hm]
        rw [ih _ _ (le_of_lt (lt_of_le_of_lt hb hgt))]
        rw [max_eq_right (le_of_lt hgt)]
      · rw [if_neg (by tauto), if_pos hm]
        rw [ih _ _ hb]
        push_neg at hgt
        rw [max_eq_left hgt]
    · rw [if_neg (by tauto), if_neg hm]
      rw [ih _ _ hb]
      rw [max_eq_left hb]

lemma unionBestGo_matches_iff (unify : Unifier) (qm : TypeNode) (bs : Bindings)
    (tcs : List TypeNode) :
    ∀ b bm,
      ((unionBestGo unify qm bs tcs b bm).2.matches = true ↔
        bm.matches = true ∨ ∃ tm ∈ tcs,
          (unify qm tm bs).1.matches = true ∧ b < (unify qm tm bs).1.score) := by
  induction tcs with
  | nil => intro b bm; simp [unionBestGo]
  | cons tm rest ih =>
    intro b bm
    simp only [unionBestGo]
    by_cases hm : (unify qm tm bs).1.matches = true ∧ (unify qm tm bs).1.score > b
    · rw [if_pos hm]
      rw [ih]
      constructor
      · intro _
        exact Or.inr ⟨tm, by simp, hm.1, hm.2⟩
      · intro _
        left
        exact hm.1
    · rw [if_neg hm]
      rw [ih]
      constructor
      · intro h1
        rcases h1 with h1 | ⟨tm', htm', hh⟩
        · exact Or.inl h1
        · exact Or.inr ⟨tm', by simp [htm'], hh⟩
      · intro h1
        rcases h1 with h1 | ⟨tm', htm', hh⟩
        · exact Or.inl h1
        · rcases List.mem_cons.mp htm' with heq | hmem
          · rw [heq] at hh
            exact absurd ⟨hh.1, hh.2⟩ hm
          · exact Or.inr ⟨tm', hmem, hh⟩

lemma unifyUnionGo_none_iff (unify : Unifier) (tcs : List TypeNode) (bs : Bindings)
    (qcs : List TypeNode) :
    ∀ total parts,
      (unifyUnionGo unify tcs bs qcs total parts = none ↔
        ∃ qm ∈ qcs, (unionBestGo unify qm bs tcs 0 noMatchR).2.matches = false) := by
  induction qcs with
  | nil => intro total parts; simp [unifyUnionGo]
  | cons qm rest ih =>
    intro total parts
    simp only [unifyUnionGo]
    by_cases hb : (unionBestGo unify qm bs tcs 0 noMatchR).2.matches = false
    · rw [if_pos hb]
      simp [hb]
    · rw [if_neg hb]
      rw [ih]
      constructor
      · intro ⟨qm', h1, h2⟩
        exact ⟨qm', by simp [h1], h2⟩
      · intro ⟨qm', h1, h2⟩
        rcases List.mem_cons.mp h1 with heq | hmem
        · rw [heq] at h2
          exact absurd h2 hb
        · exact ⟨qm', hmem, h2⟩

lemma unifyUnionGo_some_sum (unify : Unifier) (tcs : List TypeNode) (bs : Bindings)
    (qcs : List TypeNode)
    (hall : ∀ qm ∈ qcs, (unionBestGo unify qm bs tcs 0 noMatchR).2.matches = true) :
    ∀ total parts, ∃ parts',
      unifyUnionGo unify tcs bs qcs total parts =
        some (total + (qcs.map
          (fun qm => (unionBestGo unify qm bs tcs 0 noMatchR).2.score)).sum, parts') := by
  induction qcs with
  | nil =>
    intro total parts
    exact ⟨parts, by simp [unifyUnionGo]⟩
  | cons qm rest ih =>
    intro total parts
    have h0 : (unionBestGo unify qm bs tcs 0 noMatchR).2.matches = true := hall qm (by simp)
    have hrest : ∀ qm' ∈ rest, (unionBestGo unify qm' bs tcs 0 noMatchR).2.matches = true :=
      fun qm' h => hall qm' (by simp [h])
    obtain ⟨parts', hp⟩ := ih hrest
      (total + (unionBestGo unify qm bs tcs 0 noMatchR).2.score)
      (parts ++ (unionBestGo unify qm bs tcs 0 noMatchR).2.matchedParts)
    refine ⟨parts', ?_⟩
    simp only [unifyUnionGo, h0, List.map_cons, List.sum_cons]
    rw [if_neg (by simp [h0])]
    rw [hp]
    ring_nf

/-!
Concrete fixtures used by the witnesses below.
-/

/-- The primitive node `string`. -/
def fixStr : TypeNode := .mk .primitive "string" none none none false false

/-- The primitive node `number`. -/
def fixNum : TypeNode := .mk .primitive "number" none none none false false

/-- The type-variable node `A`. -/
def fixTvA : TypeNode := .mk .typeVariable "A" none none none true false

/-- The generic node `Option<A>`. -/
def fixOptionA : TypeNode :=
  .mk .generic "Option<A>" none (some "Option") (some [fixTvA]) false false

/-- The generic node `Option<string>`. -/
def fixOptionStr : TypeNode :=
  .mk .generic "Option<string>" none (some "Option") (some [fixStr]) false false

/-- A parsed signature `(a: string) => Option<string>`. -/
def fixSig : ParsedSignature :=
  { raw := "(a: string) => Option<string>", typeParameters := [],
    parameters := [{ name := "a", type := fixStr, optional := false }],
    returnType := fixOptionStr }

/-- A catalog entry carrying `fixSig`. -/
def fixEntry : FunctionEntry :=
  { id := "Option.some", name := "some", module := "Option", package := "effect",
    signature := "(a: string) => Option<string>", signatureParsed := some fixSig }

/-- The result `searchByType "Option<A>" [fixEntry] 50` produces. -/
def fixRes : TypeSearchResult :=
  { entry := fixEntry,
    matchResult := { «matches» := true, score := 67.5, bindings := [("A", fixStr)],
                     matchedParts := ["string"] } }

/-- A one-parameter function node `(x: string) => string`. -/
def fixFnQ : TypeNode :=
  .mk .function "(x: string) => string" (some [fixStr, fixStr]) none none false false

/-- A one-parameter function node `(x: number) => string`. -/
def fixFnT : TypeNode :=
  .mk .function "(x: number) => string" (some [fixNum, fixStr]) none none false false

/-- The empty tuple node `[]` (producible by the parser from `"[]"`). -/
def fixEmptyTuple : TypeNode := .mk .tuple "[]" (some []) none none false false

/-- A union node whose single member is the empty tuple. -/
def fixUnionE : TypeNode := .mk .union "u" (some [fixEmptyTuple]) none none false false

/-- A union node with single member `string`. -/
def fixUnionS : TypeNode := .mk .union "string" (some [fixStr]) none none false false

/-- A union node with members `number` and `string`. -/
def fixUnionNS : TypeNode :=
  .mk .union "number | string" (some [fixNum, fixStr]) none none false false

/-!
Claim theorems.
-/

/-- C7: for every query node, target node and binding table, a call to
`unifyTypes` at depth 10 or greater returns a match with score 60 when
the raw texts are identical, otherwise a match with score 50 when
either node is a type variable, and otherwise no match — no other rule
(wildcard included) applies, since no hypothesis about the nodes'
shapes is needed. -/
theorem unifyTypes_depth_limit_rules (q t : TypeNode) (bs : Bindings) (d : Nat)
    (hd : 10 ≤ d) :
    (q.text = t.text → unifyTypes q t bs d = (mkMatch 60 bs [t.text], bs))
    ∧ (q.text ≠ t.text → (q.isTypeVariable = true ∨ t.isTypeVariable = true) →
        unifyTypes q t bs d = (mkMatch 50 bs [t.text], bs))
    ∧ (q.text ≠ t.text → q.isTypeVariable = false → t.isTypeVariable = false →
        unifyTypes q t bs d = (noMatchR, bs)) := by
  have hl : unifyTypes q t bs d = unifyAtLimit q t bs :=
    unifyTypes_eq_atLimit q t bs d (by unfold MAX_UNIFY_DEPTH; omega)
  refine ⟨?_, ?_, ?_⟩
  · intro h1
    rw [hl]
    unfold unifyAtLimit
    rw [if_pos h1]
  · intro h1 h2
    rw [hl]
    unfold unifyAtLimit
    rw [if_neg h1, if_pos h2]
  · intro h1 h2 h3
    rw [hl]
    unfold unifyAtLimit
    rw [if_neg h1, if_neg (by simp [h2, h3])]

/-- Witness for C7: at depth 10, the type variable `A` against the
primitive `string` (differing texts) yields exactly a match of score
50. -/
theorem unifyTypes_depth_limit_rules_witness :
    fixTvA.text ≠ fixStr.text ∧
    unifyTypes fixTvA fixStr [] 10 = (mkMatch 50 [] ["string"], []) := by
  have h1 : fixTvA.text ≠ fixStr.text := by decide
  have h2 := (unifyTypes_depth_limit_rules fixTvA fixStr [] 10 (le_refl 10)).2.1 h1
    (Or.inl (by decide))
  exact ⟨h1, by rw [h2]; rfl⟩

/-- C5: the type-variable rules of `unifyTypes` below the depth limit:
an unbound variable is bound to the target and matches at 90; a bound
variable matches at 90 when the binding's text equals the target's
text, at 85 when the binding or the target is itself a type variable,
at 80 when the binding has the target's kind and their constructor
names, when both are (truthily) present, agree; otherwise there is no
match. -/
theorem unifyTypes_typeVariable_rules (q t : TypeNode) (bs : Bindings) (d : Nat)
    (hd : d < 10) (hv : q.isTypeVariable = true) (hw : q.isWildcard = false) :
    (bs.get q.text = none →
      unifyTypes q t bs d = (mkMatch 90 (bs.set q.text t) [t.text], bs.set q.text t))
    ∧ (∀ ex, bs.get q.text = some ex →
        (ex.text = t.text → unifyTypes q t bs d = (mkMatch 90 bs [t.text], bs))
        ∧ (ex.text ≠ t.text → (ex.isTypeVariable = true ∨ t.isTypeVariable = true) →
            unifyTypes q t bs d = (mkMatch 85 bs [t.text], bs))
        ∧ (ex.text ≠ t.text → ex.isTypeVariable = false → t.isTypeVariable = false →
            ex.kind = t.kind →
            ¬(strTruthy ex.typeName = true ∧ strTruthy t.typeName = true ∧
              ex.typeName ≠ t.typeName) →
            unifyTypes q t bs d = (mkMatch 80 bs [t.text], bs))
        ∧ (ex.text ≠ t.text → ex.isTypeVariable = false → t.isTypeVariable = false →
            (ex.kind ≠ t.kind ∨ (strTruthy ex.typeName = true ∧ strTruthy t.typeName = true ∧
              ex.typeName ≠ t.typeName)) →
            unifyTypes q t bs d = (noMatchR, bs))) := by
  have hstep := unifyTypes_eq_step q t bs d (by unfold MAX_UNIFY_DEPTH; omega)
  constructor
  · intro hg
    rw [hstep]
    exact unifyStep_typeVar_unbound _ q t bs hw hv hg
  · intro ex hg
    have hb := unifyStep_typeVar_bound (fun a b c => unifyTypes a b c (d + 1)) q t bs ex hw hv hg
    refine ⟨?_, ?_, ?_, ?_⟩
    · intro h1
      rw [hstep, hb, if_pos h1]
    · intro h1 h2
      rw [hstep, hb, if_neg h1, if_pos h2]
    · intro h1 h2 h3 h4 h5
      rw [hstep, hb, if_neg h1, if_neg (by simp [h2, h3]), if_neg (by simp [h4]),
        if_neg h5]
    · intro h1 h2 h3 h4
      rw [hstep, hb, if_neg h1, if_neg (by simp [h2, h3])]
      rcases h4 with h4 | h4
      · rw [if_pos h4]
      · by_cases hk : ex.kind ≠ t.kind
        · rw [if_pos hk]
        · rw [if_neg hk, if_pos h4]

/-- Witness for C5: at depth 0, the unbound variable `A` binds to the
primitive `string` and matches at 90, extending the binding table. -/
theorem unifyTypes_typeVariable_rules_witness :
    (Bindings.get [] fixTvA.text = none) ∧
    unifyTypes fixTvA fixStr [] 0 =
      (mkMatch 90 [("A", fixStr)] ["string"], [("A", fixStr)]) := by
  have hg : Bindings.get [] fixTvA.text = none := rfl
  have h := (unifyTypes_typeVariable_rules fixTvA fixStr [] 0 (by omega)
    (by decide) (by decide)).1 hg
  refine ⟨hg, ?_⟩
  rw [h]
  with_unfolding_all rfl

/-- C10: union unification below the depth limit never mutates the
caller's binding table — every candidate pair is explored against a
copy — and a successful match result carries the caller's original
table unchanged, so bindings made inside union members are invisible
afterwards. -/
theorem unifyUnionTypes_preserves_bindings (q t : TypeNode) (bs : Bindings) (d : Nat)
    (hd : d < 10)
    (hqk : q.kind = TypeKind.union) (htk : t.kind = TypeKind.union)
    (hw : q.isWildcard = false) (hv : q.isTypeVariable = false)
    (htv : t.isTypeVariable = false) :
    (unifyTypes q t bs d).2 = bs ∧
    ((unifyTypes q t bs d).1.matches = true → (unifyTypes q t bs d).1.bindings = bs) := by
  have hstep := unifyTypes_eq_step q t bs d (by unfold MAX_UNIFY_DEPTH; omega)
  rw [hstep, unifyStep_union _ q t bs hw hv htv hqk htk]
  unfold unifyUnionTypesF
  dsimp only
  split
  · exact ⟨rfl, by intro h; simp [noMatchR] at h⟩
  · split
    · exact ⟨rfl, by intro h; simp [noMatchR] at h⟩
    · exact ⟨rfl, fun _ => rfl⟩

/-- Witness for C10: two singleton unions of `string`; the match
succeeds and both the threaded table and the result's table are the
caller's original (nonempty) table. -/
theorem unifyUnionTypes_preserves_bindings_witness :
    (unifyTypes fixUnionS fixUnionS [("B", fixNum)] 0).2 = [("B", fixNum)] ∧
    (unifyTypes fixUnionS fixUnionS [("B", fixNum)] 0).1.matches = true ∧
    (unifyTypes fixUnionS fixUnionS [("B", fixNum)] 0).1.bindings = [("B", fixNum)] := by
  have h := unifyUnionTypes_preserves_bindings fixUnionS fixUnionS [("B", fixNum)] 0
    (by omega) (by decide) (by decide) (by decide) (by decide) (by decide)
  have hm : (unifyTypes fixUnionS fixUnionS [("B", fixNum)] 0).1.matches = true := by
    with_unfolding_all rfl
  exact ⟨h.1, hm, h.2 hm⟩

/-- C1: every pair returned by `searchByType` has `matches = true` and
a score strictly above 30 and at most 100; the list is sorted by
non-increasing score; entries with equal scores appear in their
original catalog order (the filtered candidate list `searchCandidates`
preserves catalog order, and restricting the output to any fixed score
yields a prefix of the same restriction of that list); and the output
length is at most the limit. -/
theorem searchByType_results_spec (q : String) (cat : List FunctionEntry) (n : Nat) :
    (∀ r ∈ searchByType q cat n,
        r.matchResult.matches = true ∧ 30 < r.matchResult.score ∧ r.matchResult.score ≤ 100)
    ∧ (searchByType q cat n).Pairwise
        (fun a b => b.matchResult.score ≤ a.matchResult.score)
    ∧ (searchByType q cat n).length ≤ n
    ∧ (∀ qt, parseTypeQuery q = some qt → ∀ s : ℚ,
        List.IsPrefix
          ((searchByType q cat n).filter (fun r => r.matchResult.score = s))
          ((searchCandidates qt cat).filter (fun r => r.matchResult.score = s))) := by
  cases hp : parseTypeQuery q with
  | none =>
    refine ⟨?_, ?_, ?_, ?_⟩ <;> simp [searchByType, hp]
  | some qt =>
    have hsb : searchByType q cat n =
        (sortByScoreDesc (searchCandidates qt cat)).take n := by
      simp [searchByType, hp]
    refine ⟨?_, ?_, ?_, ?_⟩
    · intro r hr
      rw [hsb] at hr
      have hr1 : r ∈ sortByScoreDesc (searchCandidates qt cat) :=
        List.mem_of_mem_take hr
      have hr2 : r ∈ searchCandidates qt cat :=
        (sortByScoreDesc_perm _).mem_iff.mp hr1
      unfold searchCandidates at hr2
      obtain ⟨entry, _, hf⟩ := List.mem_filterMap.mp hr2
      cases hsig : entry.signatureParsed with
      | none => rw [hsig] at hf; simp at hf
      | some sig =>
        rw [hsig] at hf
        simp only at hf
        split at hf
        · rename_i hcond
          have hr3 : r.matchResult = matchFunction qt sig := by
            cases hf
            rfl
          refine ⟨?_, ?_, ?_⟩
          · rw [hr3]; exact hcond.1
          · rw [hr3]; exact hcond.2
          · rw [hr3]; exact matchFunction_score_le qt sig
        · simp at hf
    · rw [hsb]
      exact List.Pairwise.sublist (List.take_sublist n _) (sortByScoreDesc_pairwise _)
    · rw [hsb, List.length_take]
      exact min_le_left ..
    · intro qt' hqt s
      have hqq : qt' = qt := by
        injection hqt with h
        exact h.symm
      rw [hqq, hsb, ← sortByScoreDesc_filter_score (searchCandidates qt cat) s]
      exact (List.take_prefix n _).filter _

/-- Witness for C1: the query `Option<A>` against a one-entry catalog
returns exactly one result, whose match result satisfies all the score
constraints. -/
theorem searchByType_results_spec_witness :
    fixRes ∈ searchByType "Option<A>" [fixEntry] 50 ∧
    (fixRes.matchResult.matches = true ∧ 30 < fixRes.matchResult.score ∧
      fixRes.matchResult.score ≤ 100) := by
  have hmem : fixRes ∈ searchByType "Option<A>" [fixEntry] 50 := by
    have heq : searchByType "Option<A>" [fixEntry] 50 = [fixRes] := by
      with_unfolding_all rfl
    rw [heq]
    exact List.mem_singleton.mpr rfl
  exact ⟨hmem, (searchByType_results_spec "Option<A>" [fixEntry] 50).1 fixRes hmem⟩

/-!
Characterisation of `unifyTypeArgumentsF` in terms of `seqUnify`, and
the C3 rules.
-/

lemma unifyTypeArgumentsF_empty_empty (unify : Unifier) (bs : Bindings) :
    unifyTypeArgumentsF unify [] [] bs = (mkMatch 100 bs [], bs) := by
  unfold unifyTypeArgumentsF
  simp

lemma unifyTypeArgumentsF_one_empty (unify : Unifier) (qas tas : List TypeNode)
    (bs : Bindings)
    (h : (qas = [] ∧ tas ≠ []) ∨ (qas ≠ [] ∧ tas = [])) :
    unifyTypeArgumentsF unify qas tas bs = (mkMatch 60 bs [], bs) := by
  unfold unifyTypeArgumentsF
  rcases h with ⟨h1, h2⟩ | ⟨h1, h2⟩
  · rw [if_pos (by simp [h1])]
    rw [if_neg (by simp [List.length_eq_zero, h2])]
  · rw [if_pos (by simp [h2])]
    rw [if_neg (by simp [List.length_eq_zero, h1])]

lemma unifyTypeArgumentsF_fail (unify : Unifier) (qas tas : List TypeNode)
    (bs : Bindings) (h1 : qas ≠ []) (h2 : tas ≠ [])
    (hex : ∃ r ∈ seqUnify unify (qas.zip tas) bs, r.matches = false) :
    (unifyTypeArgumentsF unify qas tas bs).1 = noMatchR := by
  have hq0 : qas.length ≠ 0 := by simp [List.length_eq_zero, h1]
  have ht0 : tas.length ≠ 0 := by simp [List.length_eq_zero, h2]
  unfold unifyTypeArgumentsF
  rw [if_neg (by omega)]
  cases heq : unifyArgsGo unify (qas.zip tas) bs 0 [] with
  | mk res bs1 =>
    have hfst := unifyArgsGo_fst_of_exists unify (qas.zip tas) bs hex 0 []
    rw [heq] at hfst
    simp only at hfst
    rw [hfst]

lemma unifyTypeArgumentsF_ok (unify : Unifier) (qas tas : List TypeNode)
    (bs : Bindings) (h1 : qas ≠ []) (h2 : tas ≠ [])
    (hall : ∀ r ∈ seqUnify unify (qas.zip tas) bs, r.matches = true) :
    (unifyTypeArgumentsF unify qas tas bs).1.matches = true ∧
    (unifyTypeArgumentsF unify qas tas bs).1.score =
      (if qas.length = tas.length then
        ((seqUnify unify (qas.zip tas) bs).map (·.score)).sum /
          ((min qas.length tas.length : Nat) : ℚ)
       else
        ((seqUnify unify (qas.zip tas) bs).map (·.score)).sum /
          ((min qas.length tas.length : Nat) : ℚ) * 0.8) := by
  have hq0 : qas.length ≠ 0 := by simp [List.length_eq_zero, h1]
  have ht0 : tas.length ≠ 0 := by simp [List.length_eq_zero, h2]
  unfold unifyTypeArgumentsF
  rw [if_neg (by omega)]
  cases heq : unifyArgsGo unify (qas.zip tas) bs 0 [] with
  | mk res bs1 =>
    obtain ⟨parts', hfst⟩ := unifyArgsGo_fst_of_all unify (qas.zip tas) bs hall 0 []
    rw [heq] at hfst
    simp only at hfst
    rw [hfst]
    dsimp only [mkMatch]
    refine ⟨rfl, ?_⟩
    by_cases hlen : qas.length = tas.length
    · rw [if_neg (not_ne_iff.mpr hlen), if_pos hlen, zero_add]
    · rw [if_pos hlen, if_neg hlen, zero_add]

/-- C3: for generic-kind or effect-kind nodes carrying constructor
names and type-argument lists, unified below the depth limit: the match
fails unless the constructor names agree case-insensitively; with
agreeing names, two empty argument lists score 100, exactly one empty
list gives a match at 60, and otherwise the arguments are unified
pairwise (threading the binding table) — one failing pair fails the
node, and if all pairs match the score is the mean of the pairwise
scores, multiplied by 0.8 when the argument counts differ. -/
theorem unifyTypes_generic_rules (q t : TypeNode) (bs : Bindings) (d : Nat)
    (hd : d < 10)
    (hw : q.isWildcard = false) (hv : q.isTypeVariable = false)
    (htv : t.isTypeVariable = false)
    (hqk : q.kind = TypeKind.generic ∨ q.kind = TypeKind.effect)
    (htk : t.kind = TypeKind.generic ∨ t.kind = TypeKind.effect)
    (qn tn : String) (hqn : q.typeName = some qn) (htn : t.typeName = some tn)
    (qas tas : List TypeNode) (hqa : q.typeArguments = some qas)
    (hta : t.typeArguments = some tas) :
    (jsToLower qn ≠ jsToLower tn → (unifyTypes q t bs d).1 = noMatchR)
    ∧ (jsToLower qn = jsToLower tn →
        (qas = [] → tas = [] → (unifyTypes q t bs d).1 = mkMatch 100 bs [])
        ∧ ((qas = [] ∧ tas ≠ []) ∨ (qas ≠ [] ∧ tas = []) →
            (unifyTypes q t bs d).1 = mkMatch 60 bs [])
        ∧ (qas ≠ [] → tas ≠ [] →
            ((∃ r ∈ seqUnify (fun a b c => unifyTypes a b c (d + 1)) (qas.zip tas) bs,
                r.matches = false) → (unifyTypes q t bs d).1 = noMatchR)
            ∧ ((∀ r ∈ seqUnify (fun a b c => unifyTypes a b c (d + 1)) (qas.zip tas) bs,
                r.matches = true) →
              (unifyTypes q t bs d).1.matches = true ∧
              (unifyTypes q t bs d).1.score =
                (if qas.length = tas.length then
                  ((seqUnify (fun a b c => unifyTypes a b c (d + 1)) (qas.zip tas) bs).map
                    (·.score)).sum / ((min qas.length tas.length : Nat) : ℚ)
                 else
                  ((seqUnify (fun a b c => unifyTypes a b c (d + 1)) (qas.zip tas) bs).map
                    (·.score)).sum / ((min qas.length tas.length : Nat) : ℚ) * 0.8)))) := by
  have hstep := unifyTypes_eq_step q t bs d (by unfold MAX_UNIFY_DEPTH; omega)
  have hgen := unifyStep_generic (fun a b c => unifyTypes a b c (d + 1)) q t bs
    hw hv htv hqk htk (by rw [hqa]; rfl) (by rw [hta]; rfl)
  rw [hqn, htn, hqa, hta] at hgen
  simp only [Option.map_some', Option.getD_some] at hgen
  constructor
  · intro hne
    rw [hstep, hgen, if_pos (by simpa using hne)]
  · intro heqn
    have hgen' := hgen
    rw [if_neg (by simpa using heqn)] at hgen'
    refine ⟨?_, ?_, ?_⟩
    · intro hq ht
      rw [hstep, hgen', hq, ht, unifyTypeArgumentsF_empty_empty]
    · intro h
      rw [hstep, hgen', unifyTypeArgumentsF_one_empty _ _ _ _ h]
    · intro h1 h2
      constructor
      · intro hex
        rw [hstep, hgen']
        exact unifyTypeArgumentsF_fail _ _ _ _ h1 h2 hex
      · intro hall
        rw [hstep, hgen']
        exact unifyTypeArgumentsF_ok _ _ _ _ h1 h2 hall

/-- Witness for C3: `Option<A>` against `Option<string>` at depth 0:
the single argument pair matches (the variable binds at 90), so the
node matches with the mean score 90. -/
theorem unifyTypes_generic_rules_witness :
    jsToLower "Option" = jsToLower "Option" ∧
    (∀ r ∈ seqUnify (fun a b c => unifyTypes a b c 1) [(fixTvA, fixStr)] [],
        r.matches = true) ∧
    (unifyTypes fixOptionA fixOptionStr [] 0).1.matches = true ∧
    (unifyTypes fixOptionA fixOptionStr [] 0).1.score = 90 := by
  have hseq : seqUnify (fun a b c => unifyTypes a b c 1) [(fixTvA, fixStr)] [] =
      [mkMatch 90 [("A", fixStr)] ["string"]] := by
    with_unfolding_all rfl
  have hall : ∀ r ∈ seqUnify (fun a b c => unifyTypes a b c 1) [(fixTvA, fixStr)] [],
      r.matches = true := by
    intro r hr
    rw [hseq] at hr
    rw [List.mem_singleton.mp hr]
    rfl
  have h := ((unifyTypes_generic_rules fixOptionA fixOptionStr [] 0 (by omega)
      (by decide) (by decide) (by decide) (Or.inl (by decide)) (Or.inl (by decide))
      "Option" "Option" rfl rfl [fixTvA] [fixStr] rfl rfl).2 rfl).2.2
      (by simp) (by simp)
  have h2 := h.2 hall
  refine ⟨rfl, hall, h2.1, ?_⟩
  rw [h2.2]
  norm_num [hseq, mkMatch]

/-- C4 (amended): function unification below the depth limit.  The
match fails if either side has no children or if the return types (the
last children) fail to unify; a query with zero parameters matches at
0.9 times the return score; otherwise the final score is
0.6 × returnScore + 0.4 × paramScore, where paramScore averages over
the compared positions (up to the shorter list, a failed position
counting a flat 20), is a flat 50 when zero positions were compared,
and — amendment — is multiplied by 1.1 (capped at 100) whenever both
arities are equal, regardless of whether every compared parameter
individually matched (the loop counter that the bonus condition checks
counts failed positions too). -/
theorem unifyTypes_function_rules (q t : TypeNode) (bs : Bindings) (d : Nat)
    (hd : d < 10)
    (hw : q.isWildcard = false) (hv : q.isTypeVariable = false)
    (htv : t.isTypeVariable = false)
    (hqk : q.kind = TypeKind.function) (htk : t.kind = TypeKind.function) :
    (((q.children.getD []).length = 0 ∨ (t.children.getD []).length = 0) →
        (unifyTypes q t bs d).1 = noMatchR)
    ∧ (∀ qps qr tps tr, q.children = some (qps ++ [qr]) → t.children = some (tps ++ [tr]) →
        (((unifyTypes qr tr bs (d + 1)).1.matches = false →
            (unifyTypes q t bs d).1 = noMatchR)
         ∧ ((unifyTypes qr tr bs (d + 1)).1.matches = true → qps = [] →
            (unifyTypes q t bs d).1 =
              mkMatch ((unifyTypes qr tr bs (d + 1)).1.score * 0.9)
                (unifyTypes qr tr bs (d + 1)).2
                (unifyTypes qr tr bs (d + 1)).1.matchedParts)
         ∧ ((unifyTypes qr tr bs (d + 1)).1.matches = true → qps ≠ [] → tps = [] →
            (unifyTypes q t bs d).1.matches = true ∧
            (unifyTypes q t bs d).1.score =
              (unifyTypes qr tr bs (d + 1)).1.score * 0.6 + 50 * 0.4)
         ∧ ((unifyTypes qr tr bs (d + 1)).1.matches = true → qps ≠ [] → tps ≠ [] →
            (unifyTypes q t bs d).1.matches = true ∧
            (unifyTypes q t bs d).1.score =
              (unifyTypes qr tr bs (d + 1)).1.score * 0.6 +
                (if qps.length = tps.length then
                  min 100
                    ((((seqUnify (fun a b c => unifyTypes a b c (d + 1)) (qps.zip tps)
                          (unifyTypes qr tr bs (d + 1)).2).map
                        (fun r => if r.matches = true then r.score else 20)).sum /
                      ((qps.zip tps).length : ℚ)) * 1.1)
                 else
                   ((seqUnify (fun a b c => unifyTypes a b c (d + 1)) (qps.zip tps)
                        (unifyTypes qr tr bs (d + 1)).2).map
                      (fun r => if r.matches = true then r.score else 20)).sum /
                     ((qps.zip tps).length : ℚ)) * 0.4))) := by
  have hstep := unifyTypes_eq_step q t bs d (by unfold MAX_UNIFY_DEPTH; omega)
  have hfn := unifyStep_function (fun a b c => unifyTypes a b c (d + 1)) q t bs hw hv htv hqk htk
  constructor
  · intro h0
    rw [hstep, hfn]
    unfold unifyFunctionTypesF
    rw [if_pos h0]
  · intro qps qr tps tr hqc htc
    have hrw : unifyTypes q t bs d =
        unifyFunctionTypesF (fun a b c => unifyTypes a b c (d + 1)) q t bs := by
      rw [hstep, hfn]
    have hqch : q.children.getD [] = qps ++ [qr] := by rw [hqc]; rfl
    have htch : t.children.getD [] = tps ++ [tr] := by rw [htc]; rfl
    have hne : ¬((q.children.getD []).length = 0 ∨ (t.children.getD []).length = 0) := by
      rw [hqch, htch]
      simp
    refine ⟨?_, ?_, ?_, ?_⟩
    · intro hret
      rw [hrw]
      unfold unifyFunctionTypesF
      rw [if_neg hne, hqch, htch, List.getLast?_concat, List.getLast?_concat]
      simp only [hret, if_pos]
    · intro hret hq0
      rw [hrw]
      unfold unifyFunctionTypesF
      rw [if_neg hne, hqch, htch, List.getLast?_concat, List.getLast?_concat]
      simp only [hret]
      rw [if_neg (by simp)]
      rw [List.dropLast_concat, hq0]
      rw [if_pos (by simp)]
    · intro hret hq0 ht0
      rw [hrw]
      unfold unifyFunctionTypesF
      rw [if_neg hne, hqch, htch, List.getLast?_concat, List.getLast?_concat]
      simp only [hret]
      rw [if_neg (by simp)]
      rw [List.dropLast_concat, List.dropLast_concat, ht0]
      rw [if_neg (by simp [List.length_eq_zero, hq0])]
      have hpz : unifyParametersF (fun a b c => unifyTypes a b c (d + 1)) qps []
          (unifyTypes qr tr bs (d + 1)).2 =
          (mkMatch 50 (unifyTypes qr tr bs (d + 1)).2 [],
            (unifyTypes qr tr bs (d + 1)).2) := by
        unfold unifyParametersF
        rw [if_neg (by simp [List.length_eq_zero, hq0])]
        simp [unifyParamsGo]
      rw [hpz]
      exact ⟨rfl, rfl⟩
    · intro hret hq0 ht0
      rw [hrw]
      unfold unifyFunctionTypesF
      rw [if_neg hne, hqch, htch, List.getLast?_concat, List.getLast?_concat]
      simp only [hret]
      rw [if_neg (by simp)]
      rw [List.dropLast_concat, List.dropLast_concat]
      rw [if_neg (by simp [List.length_eq_zero, hq0])]
      have hzlen : (qps.zip tps).length ≠ 0 := by
        rw [List.length_zip]
        simp only [ne_eq, Nat.min_eq_zero_iff, List.length_eq_zero]
        push_neg
        exact ⟨hq0, ht0⟩
      have hcnt : (unifyParamsGo (fun a b c => unifyTypes a b c (d + 1)) (qps.zip tps)
          (unifyTypes qr tr bs (d + 1)).2 0 0 []).2.1 = (qps.zip tps).length := by
        rw [unifyParamsGo_count]; omega
      have htot := unifyParamsGo_fst_eq_seq (fun a b c => unifyTypes a b c (d + 1))
        (qps.zip tps) (unifyTypes qr tr bs (d + 1)).2 0 0 []
      have hpf : (unifyParametersF (fun a b c => unifyTypes a b c (d + 1)) qps tps
          (unifyTypes qr tr bs (d + 1)).2).1.matches = true ∧
          (unifyParametersF (fun a b c => unifyTypes a b c (d + 1)) qps tps
            (unifyTypes qr tr bs (d + 1)).2).1.score =
            (if qps.length = tps.length then
              min 100
                ((((seqUnify (fun a b c => unifyTypes a b c (d + 1)) (qps.zip tps)
                      (unifyTypes qr tr bs (d + 1)).2).map
                    (fun r => if r.matches = true then r.score else 20)).sum /
                  ((qps.zip tps).length : ℚ)) * 1.1)
             else
               ((seqUnify (fun a b c => unifyTypes a b c (d + 1)) (qps.zip tps)
                    (unifyTypes qr tr bs (d + 1)).2).map
                  (fun r => if r.matches = true then r.score else 20)).sum /
                 ((qps.zip tps).length : ℚ)) := by
        unfold unifyParametersF
        rw [if_neg (by simp [List.length_eq_zero, hq0])]
        dsimp only
        rw [if_neg (by rw [hcnt]; exact hzlen)]
        dsimp only [mkMatch]
        refine ⟨rfl, ?_⟩
        by_cases hlen : qps.length = tps.length
        · have hcq : (qps.zip tps).length = qps.length := by
            rw [List.length_zip, hlen, Nat.min_self]
          rw [if_pos ⟨hlen, by rw [hcnt, hcq]⟩, if_pos hlen, htot, hcnt]
          rw [zero_add]
        · have hcond : ¬(qps.length = tps.length ∧
              (unifyParamsGo (fun a b c => unifyTypes a b c (d + 1)) (qps.zip tps)
                (unifyTypes qr tr bs (d + 1)).2 0 0 []).2.1 = qps.length) := by
            intro hc
            exact hlen hc.1
          rw [if_neg hcond, if_neg hlen, htot, hcnt]
          rw [zero_add]
      rw [hpf.2]
      exact ⟨rfl, rfl⟩

/-- Counterexample for C4 as stated: for `(x: string) => string`
against `(x: number) => string` the single parameter fails (string vs
number) yet both arities are 1, and the code still applies the 1.1
bonus: the score is 0.6·100 + 0.4·min(100, 20·1.1) = 68.8 = 344/5, not
the 0.6·100 + 0.4·20 = 68 the claim predicts. -/
theorem unifyTypes_function_bonus_counterexample :
    (unifyTypes fixStr fixStr [] 1).1.score = 100 ∧
    (unifyTypes fixStr fixNum [] 1).1.matches = false ∧
    (unifyTypes fixFnQ fixFnT [] 0).1.matches = true ∧
    (unifyTypes fixFnQ fixFnT [] 0).1.score = 344 / 5 ∧
    (344 : ℚ) / 5 ≠ 100 * 0.6 + 20 * 0.4 := by
  refine ⟨?_, ?_, ?_, ?_, ?_⟩
  · with_unfolding_all rfl
  · with_unfolding_all rfl
  · with_unfolding_all rfl
  · with_unfolding_all rfl
  · norm_num

/-- Witness for C4 (amended): applying the rule to the concrete pair
of the counterexample reproduces the bonus-inclusive score 344/5. -/
theorem unifyTypes_function_rules_witness :
    (unifyTypes fixStr fixStr [] 1).1.matches = true ∧
    (unifyTypes fixFnQ fixFnT [] 0).1.matches = true ∧
    (unifyTypes fixFnQ fixFnT [] 0).1.score = 344 / 5 := by
  have hm : (unifyTypes fixStr fixStr [] 1).1.matches = true := by
    with_unfolding_all rfl
  have th := ((unifyTypes_function_rules fixFnQ fixFnT [] 0 (by omega) (by decide)
      (by decide) (by decide) (by decide) (by decide)).2
      [fixStr] fixStr [fixNum] fixStr rfl rfl).2.2.2 hm (by simp) (by simp)
  refine ⟨hm, th.1, ?_⟩
  with_unfolding_all rfl

/-- Counterexample for C6 as stated: with query and target unions whose
single member is the empty tuple, the member pair does match
(`matches = true`, at score 0, the mean over zero tuple elements), yet
the whole union match fails — the best-match search only accepts
candidates whose score strictly exceeds the running best, which starts
at 0. -/
theorem unifyTypes_union_zero_score_counterexample :
    (unifyTypes fixEmptyTuple fixEmptyTuple [] 1).1.matches = true ∧
    (unifyTypes fixUnionE fixUnionE [] 0).1.matches = false := by
  constructor
  · with_unfolding_all rfl
  · with_unfolding_all rfl

/-- C6 (amended): for union nodes with nonempty member lists, unified
below the depth limit, every candidate member pair is explored against
the caller's own binding table (a fresh copy each time): the whole
match succeeds exactly when every query member has some target member
that matches with strictly positive score (amendment: a zero-score
match, as between empty tuples, does not count), and then the score is
the mean over the query members of each member's best (maximal)
matching target score; unmatched target members play no role. -/
theorem unifyTypes_union_rules (q t : TypeNode) (bs : Bindings) (d : Nat)
    (hd : d < 10)
    (hw : q.isWildcard = false) (hv : q.isTypeVariable = false)
    (htv : t.isTypeVariable = false)
    (hqk : q.kind = TypeKind.union) (htk : t.kind = TypeKind.union)
    (qcs tcs : List TypeNode) (hqc : q.children = some qcs) (htc : t.children = some tcs)
    (hqne : qcs ≠ []) (htne : tcs ≠ []) :
    ((unifyTypes q t bs d).1.matches = true ↔
      ∀ qm ∈ qcs, ∃ tm ∈ tcs,
        (unifyTypes qm tm bs (d + 1)).1.matches = true ∧
        0 < (unifyTypes qm tm bs (d + 1)).1.score)
    ∧ ((unifyTypes q t bs d).1.matches = true →
      (unifyTypes q t bs d).1.score =
        ((qcs.map (fun qm =>
          (tcs.map (fun tm =>
            if (unifyTypes qm tm bs (d + 1)).1.matches = true
            then (unifyTypes qm tm bs (d + 1)).1.score else 0)).foldl max 0)).sum) /
          (qcs.length : ℚ)) := by
  have hstep := unifyTypes_eq_step q t bs d (by unfold MAX_UNIFY_DEPTH; omega)
  have hun := unifyStep_union (fun a b c => unifyTypes a b c (d + 1)) q t bs hw hv htv hqk htk
  have hrw : unifyTypes q t bs d =
      unifyUnionTypesF (fun a b c => unifyTypes a b c (d + 1)) q t bs := by
    rw [hstep, hun]
  have hqch : q.children.getD [] = qcs := by rw [hqc]; rfl
  have htch : t.children.getD [] = tcs := by rw [htc]; rfl
  have hne : ¬((q.children.getD []).length = 0 ∨ (t.children.getD []).length = 0) := by
    rw [hqch, htch]
    simp [List.length_eq_zero, hqne, htne]
  have hmem_iff : ∀ qm, ((unionBestGo (fun a b c => unifyTypes a b c (d + 1)) qm bs tcs 0
      noMatchR).2.matches = true ↔
      ∃ tm ∈ tcs, (unifyTypes qm tm bs (d + 1)).1.matches = true ∧
        0 < (unifyTypes qm tm bs (d + 1)).1.score) := by
    intro qm
    rw [unionBestGo_matches_iff]
    simp [noMatchR]
  rw [hrw]
  unfold unifyUnionTypesF
  rw [if_neg hne, hqch, htch]
  cases heq : unifyUnionGo (fun a b c => unifyTypes a b c (d + 1)) tcs bs qcs 0 [] with
  | none =>
    obtain ⟨qm, hqm, hbf⟩ := (unifyUnionGo_none_iff _ tcs bs qcs 0 []).mp heq
    constructor
    · simp only [noMatchR]
      constructor
      · intro hfalse
        simp at hfalse
      · intro hall
        have := (hmem_iff qm).mpr (hall qm hqm)
        rw [hbf] at this
        simp at this
    · intro hfalse
      simp [noMatchR] at hfalse
  | some tp =>
    obtain ⟨ts, ps⟩ := tp
    have hnotnone : ∀ qm ∈ qcs,
        (unionBestGo (fun a b c => unifyTypes a b c (d + 1)) qm bs tcs 0
          noMatchR).2.matches = true := by
      intro qm hqm
      by_contra hb
      rw [Bool.not_eq_true] at hb
      have : unifyUnionGo (fun a b c => unifyTypes a b c (d + 1)) tcs bs qcs 0 [] = none :=
        (unifyUnionGo_none_iff _ tcs bs qcs 0 []).mpr ⟨qm, hqm, hb⟩
      rw [heq] at this
      simp at this
    obtain ⟨parts', hsum⟩ := unifyUnionGo_some_sum _ tcs bs qcs hnotnone 0 []
    rw [heq] at hsum
    injection hsum with hsum
    have hts : ts = (qcs.map (fun qm =>
        (unionBestGo (fun a b c => unifyTypes a b c (d + 1)) qm bs tcs 0
          noMatchR).2.score)).sum := by
      have := congrArg Prod.fst hsum
      simpa using this
    constructor
    · simp only [mkMatch]
      constructor
      · intro _ qm hqm
        exact (hmem_iff qm).mp (hnotnone qm hqm)
      · intro _
        trivial
    · intro _
      simp only [mkMatch]
      have hmapeq : qcs.map (fun qm =>
          (unionBestGo (fun a b c => unifyTypes a b c (d + 1)) qm bs tcs 0 noMatchR).2.score)
          = qcs.map (fun qm => (tcs.map (fun tm =>
              if (unifyTypes qm tm bs (d + 1)).1.matches = true
              then (unifyTypes qm tm bs (d + 1)).1.score else 0)).foldl max 0) := by
        apply List.map_congr_left
        intro qm hqm
        have hinv := unionBestGo_invariant (fun a b c => unifyTypes a b c (d + 1)) qm bs tcs
          0 noMatchR (le_refl 0) (by intro h; simp [noMatchR] at h)
        rw [hinv.2 (hnotnone qm hqm)]
        exact unionBestGo_fst_eq_foldMax _ qm bs tcs 0 noMatchR (le_refl 0)
      rw [hts, hmapeq]

/-- Witness for C6 (amended): the union `string` against the union
`number | string`: the single query member best-matches the second
target member at 100, so the whole union matches at 100. -/
theorem unifyTypes_union_rules_witness :
    (unifyTypes fixUnionS fixUnionNS [] 0).1.matches = true ∧
    (unifyTypes fixUnionS fixUnionNS [] 0).1.score = 100 := by
  have h := unifyTypes_union_rules fixUnionS fixUnionNS [] 0 (by omega) (by decide)
    (by decide) (by decide) (by decide) (by decide) [fixStr] [fixNum, fixStr] rfl rfl
    (by simp) (by simp)
  have hm : (unifyTypes fixUnionS fixUnionNS [] 0).1.matches = true := by
    with_unfolding_all rfl
  refine ⟨hm, ?_⟩
  rw [h.2 hm]
  with_unfolding_all rfl

/-- C2: `matchFunction` tries the strategies in order — (a) the query
against the synthetic function node built from the parameter types
followed by the return type, kept at its unmodified score; (b)
otherwise the return type alone, at 0.75 of its score; (c) otherwise,
only when the query is not of generic, effect or function kind, the
first declared parameter type that matches, at 0.6 of its score, and
no match when none does; (d) complex queries skip the parameter
strategy entirely.  Entries without a parsed signature contribute no
result to `searchByType`. -/
theorem matchFunction_strategy_order :
    (∀ (q : TypeNode) (sig : ParsedSignature),
      ((unifyTypes q (signatureToTypeNode sig) [] 0).1.matches = true →
        matchFunction q sig = (unifyTypes q (signatureToTypeNode sig) [] 0).1)
      ∧ ((unifyTypes q (signatureToTypeNode sig) [] 0).1.matches = false →
          (unifyTypes q sig.returnType [] 0).1.matches = true →
          matchFunction q sig =
            { (unifyTypes q sig.returnType [] 0).1 with
                score := (unifyTypes q sig.returnType [] 0).1.score * 0.75 })
      ∧ ((unifyTypes q (signatureToTypeNode sig) [] 0).1.matches = false →
          (unifyTypes q sig.returnType [] 0).1.matches = false →
          isComplexType q = false →
          matchFunction q sig =
            (match sig.parameters.find? (fun p => (unifyTypes q p.type [] 0).1.matches) with
             | some p => { (unifyTypes q p.type [] 0).1 with
                 score := (unifyTypes q p.type [] 0).1.score * 0.6 }
             | none => noMatchR))
      ∧ ((unifyTypes q (signatureToTypeNode sig) [] 0).1.matches = false →
          (unifyTypes q sig.returnType [] 0).1.matches = false →
          isComplexType q = true →
          matchFunction q sig = noMatchR))
    ∧ (∀ (qs : String) (cat : List FunctionEntry) (n : Nat) (r : TypeSearchResult),
        r ∈ searchByType qs cat n → r.entry.signatureParsed.isSome = true) := by
  constructor
  · intro q sig
    refine ⟨?_, ?_, ?_, ?_⟩
    · intro hfull
      unfold matchFunction
      rw [if_pos hfull]
    · intro hfull hret
      unfold matchFunction
      rw [if_neg (by simp [hfull]), if_pos hret]
    · intro hfull hret hcx
      unfold matchFunction
      rw [if_neg (by simp [hfull]), if_neg (by simp [hret]), if_pos hcx]
      exact matchParamsGo_eq_find q sig.parameters
    · intro hfull hret hcx
      unfold matchFunction
      rw [if_neg (by simp [hfull]), if_neg (by simp [hret]),
        if_neg (by simp [hcx])]
  · intro qs cat n r hr
    cases hp : parseTypeQuery qs with
    | none => rw [searchByType, hp] at hr; simp at hr
    | some qt =>
      rw [searchByType, hp] at hr
      simp only at hr
      have hr1 : r ∈ sortByScoreDesc (searchCandidates qt cat) :=
        List.mem_of_mem_take hr
      have hr2 : r ∈ searchCandidates qt cat :=
        (sortByScoreDesc_perm _).mem_iff.mp hr1
      unfold searchCandidates at hr2
      obtain ⟨entry, _, hf⟩ := List.mem_filterMap.mp hr2
      cases hsig : entry.signatureParsed with
      | none => rw [hsig] at hf; simp at hf
      | some sig =>
        rw [hsig] at hf
        simp only at hf
        split at hf
        · cases hf
          simp [hsig]
        · simp at hf

/-- Witness for C2: for the query `Option<A>` against the signature
`(a: string) => Option<string>`, the full-signature strategy fails and
the return-type strategy matches, so the result is the return match at
0.75 of its score. -/
theorem matchFunction_strategy_order_witness :
    (unifyTypes fixOptionA (signatureToTypeNode fixSig) [] 0).1.matches = false ∧
    (unifyTypes fixOptionA fixSig.returnType [] 0).1.matches = true ∧
    matchFunction fixOptionA fixSig =
      { (unifyTypes fixOptionA fixSig.returnType [] 0).1 with
          score := (unifyTypes fixOptionA fixSig.returnType [] 0).1.score * 0.75 } := by
  have h1 : (unifyTypes fixOptionA (signatureToTypeNode fixSig) [] 0).1.matches = false := by
    with_unfolding_all rfl
  have h2 : (unifyTypes fixOptionA fixSig.returnType [] 0).1.matches = true := by
    with_unfolding_all rfl
  exact ⟨h1, h2, (matchFunction_strategy_order.1 fixOptionA fixSig).2.1 h1 h2⟩

/-- C8: an input that is empty or consists only of whitespace parses to
`null` and makes `searchByType` return the empty list for every
catalog and limit; and `parseTypeQuery` is a total function — for
every input it returns either nothing or some tree (the source wraps
the parse in `try/catch`, so no exception escapes to the caller). -/
theorem parseTypeQuery_whitespace_rules (s : String) :
    ((∀ c ∈ s.data, c.isWhitespace = true) →
      parseTypeQuery s = none ∧ ∀ cat n, searchByType s cat n = [])
    ∧ (parseTypeQuery s = none ∨ ∃ nd, parseTypeQuery s = some nd) := by
  constructor
  · intro h
    have h1 : s.data.dropWhile Char.isWhitespace = [] :=
      List.dropWhile_eq_nil_iff.mpr (fun x hx => h x hx)
    have htrim : trimC s.data = [] := by
      unfold trimC
      rw [h1]
      rfl
    have hp : parseTypeQuery s = none := by
      unfold parseTypeQuery
      rw [htrim]
      rfl
    exact ⟨hp, fun cat n => by rw [searchByType, hp]⟩
  · cases h : parseTypeQuery s with
    | none => exact Or.inl rfl
    | some nd => exact Or.inr ⟨nd, rfl⟩

/-- Witness for C8: the three-space query returns nothing against a
nonempty catalog. -/
theorem parseTypeQuery_whitespace_rules_witness :
    parseTypeQuery "   " = none ∧ searchByType "   " [fixEntry] 7 = [] := by
  have h := (parseTypeQuery_whitespace_rules "   ").1 (by decide)
  exact ⟨h.1, h.2 [fixEntry] 7⟩

/-- Counterexample for C9 as stated: in `([A, B]) => C` the comma sits
inside square brackets, but `splitTypeArgs` only tracks angle-bracket
and paren depth, so the parameter list is split into the two reference
leaves `[A` and `B]` instead of one tuple parameter. -/
theorem parseTypeQuery_squareBracket_counterexample :
    parseTypeQuery "([A, B]) => C" =
      some (.mk .function "([A, B]) => C"
        (some [.mk .reference "[A" none (some "[A") none false false,
               .mk .reference "B]" none (some "B]") none false false,
               .mk .typeVariable "C" none none none true false])
        none none false false) := by
  with_unfolding_all rfl

/-- C9 (amended): the parameter portion of a parenthesized function
form is split on top-level commas aware of angle-bracket and paren
nesting depth only — a comma inside angle brackets does not split
(`(Map<A, B>) => C` has one parameter), while a comma inside square
brackets does split (`([A, B]) => C` has two parameters). -/
theorem parseTypeQuery_paramSplit_depth :
    parseTypeQuery "(Map<A, B>) => C" =
      some (.mk .function "(Map<A, B>) => C"
        (some [.mk .generic "Map<A, B>" none (some "Map")
                (some [.mk .typeVariable "A" none none none true false,
                       .mk .typeVariable "B" none none none true false]) false false,
               .mk .typeVariable "C" none none none true false])
        none none false false) ∧
    parseTypeQuery "([A, B]) => C" =
      some (.mk .function "([A, B]) => C"
        (some [.mk .reference "[A" none (some "[A") none false false,
               .mk .reference "B]" none (some "B]") none false false,
               .mk .typeVariable "C" none none none true false])
        none none false false) := by
  constructor
  · with_unfolding_all rfl
  · with_unfolding_all rfl
